import Mathlib

/-!
Shallow embedding of the phylogenetic distance and similarity scoring engine
of the MysteryMammal repository, transcribed from
`PhyloCalculator.js` (the module generation; the `game_embedded.js`
generation duplicates these functions line for line) together with
`js/modules/utils/SpeciesNormalizer.js`, and theorems settling the
specification claims about it.

JavaScript numbers are modelled exactly by `JNum`: a finite real number or
one of the special values `Infinity`, `-Infinity`, `NaN`.  Floating point
rounding is idealized away (finite arithmetic is exact real arithmetic),
while every guard of the source (`Number.isFinite`, comparisons that are
false on `NaN`, `??`, `||`, `Math.max`/`Math.min` propagation of `NaN`) is
transcribed faithfully over this model.
-/

open scoped Classical

namespace Mystery

/-- JavaScript number: a finite real or one of the IEEE special values. -/
inductive JNum where
  | num (v : ℝ)
  | inf
  | ninf
  | nan

/-- Truth of `Number.isFinite(x)`. -/
@[simp] def JNum.isFinite : JNum → Prop
  | .num _ => True
  | _ => False

/-- JavaScript comparison `x <= y`; false whenever an operand is `NaN`. -/
def JNum.jle : JNum → JNum → Prop
  | .nan, _ => False
  | _, .nan => False
  | .ninf, _ => True
  | _, .inf => True
  | .inf, _ => False
  | _, .ninf => False
  | .num a, .num b => a ≤ b

/-- JavaScript comparison `x < y`; false whenever an operand is `NaN`. -/
def JNum.jlt : JNum → JNum → Prop
  | .nan, _ => False
  | _, .nan => False
  | .ninf, .ninf => False
  | .ninf, _ => True
  | .inf, _ => False
  | _, .inf => True
  | _, .ninf => False
  | .num a, .num b => a < b

/-- JavaScript addition on numbers. -/
def JNum.jadd : JNum → JNum → JNum
  | .nan, _ => .nan
  | _, .nan => .nan
  | .num a, .num b => .num (a + b)
  | .inf, .ninf => .nan
  | .ninf, .inf => .nan
  | .inf, _ => .inf
  | _, .inf => .inf
  | .ninf, _ => .ninf
  | _, .ninf => .ninf

/-- JavaScript subtraction on numbers. -/
def JNum.jsub : JNum → JNum → JNum
  | .nan, _ => .nan
  | _, .nan => .nan
  | .num a, .num b => .num (a - b)
  | .inf, .inf => .nan
  | .ninf, .ninf => .nan
  | .inf, _ => .inf
  | .ninf, _ => .ninf
  | _, .inf => .ninf
  | _, .ninf => .inf

/-- JavaScript multiplication on numbers (`0 * Infinity` is `NaN`). -/
noncomputable def JNum.jmul : JNum → JNum → JNum
  | .nan, _ => .nan
  | _, .nan => .nan
  | .num a, .num b => .num (a * b)
  | .inf, .inf => .inf
  | .inf, .ninf => .ninf
  | .ninf, .inf => .ninf
  | .ninf, .ninf => .inf
  | .inf, .num b => if 0 < b then .inf else if b < 0 then .ninf else .nan
  | .ninf, .num b => if 0 < b then .ninf else if b < 0 then .inf else .nan
  | .num a, .inf => if 0 < a then .inf else if a < 0 then .ninf else .nan
  | .num a, .ninf => if 0 < a then .ninf else if a < 0 then .inf else .nan

/-- JavaScript division on numbers (signed zeros are collapsed to `0`). -/
noncomputable def JNum.jdiv : JNum → JNum → JNum
  | .nan, _ => .nan
  | _, .nan => .nan
  | .num a, .num b =>
      if b = 0 then (if a = 0 then .nan else if 0 < a then .inf else .ninf)
      else .num (a / b)
  | .num _, .inf => .num 0
  | .num _, .ninf => .num 0
  | .inf, .num b => if 0 ≤ b then .inf else .ninf
  | .ninf, .num b => if 0 ≤ b then .ninf else .inf
  | .inf, _ => .nan
  | .ninf, _ => .nan

/-- Semantics of `Math.max` on two arguments (`NaN` propagates). -/
def JNum.jmax : JNum → JNum → JNum
  | .nan, _ => .nan
  | _, .nan => .nan
  | .num a, .num b => .num (max a b)
  | .inf, _ => .inf
  | _, .inf => .inf
  | .ninf, y => y
  | x, .ninf => x

/-- Semantics of `Math.min` on two arguments (`NaN` propagates). -/
def JNum.jmin : JNum → JNum → JNum
  | .nan, _ => .nan
  | _, .nan => .nan
  | .num a, .num b => .num (min a b)
  | .ninf, _ => .ninf
  | _, .ninf => .ninf
  | .inf, y => y
  | x, .inf => x

/-- Semantics of `Math.round` (round half toward positive infinity). -/
noncomputable def JNum.jround : JNum → JNum
  | .num v => .num ((⌊v + 1 / 2⌋ : ℤ) : ℝ)
  | .inf => .inf
  | .ninf => .ninf
  | .nan => .nan

/-- Semantics of `Math.log1p`. -/
noncomputable def JNum.jlog1p : JNum → JNum
  | .num v => if v < -1 then .nan else if v = -1 then .ninf else .num (Real.log (1 + v))
  | .inf => .inf
  | .ninf => .nan
  | .nan => .nan

/-- Semantics of `Math.pow(x, 0.65)`; a negative finite base with this
non-integer exponent yields `NaN` in JavaScript. -/
noncomputable def JNum.jpow065 : JNum → JNum
  | .num v => if v < 0 then .nan else .num (Real.rpow v (13 / 20))
  | .inf => .inf
  | .ninf => .inf
  | .nan => .nan

theorem JNum.jadd_comm (x y : JNum) : x.jadd y = y.jadd x := by
  cases x <;> cases y <;> simp [JNum.jadd] <;> ring

/- ======================= SpeciesNormalizer ======================= -/

/-- Character-level whitespace test matching the characters relevant to the
species labels in this repository (the JavaScript `\s` class restricted to
ASCII whitespace). -/
def isWsChar (c : Char) : Bool := c.isWhitespace

/-- Drop from both ends of a character list every whitespace character;
this is `String.prototype.trim`. -/
def lcTrim (cs : List Char) : List Char :=
  ((cs.dropWhile isWsChar).reverse.dropWhile isWsChar).reverse

/-- Worker for whitespace-run collapsing: the flag records whether the
previous character was whitespace, so a run emits exactly one underscore. -/
def collapseWsAux : Bool → List Char → List Char
  | _, [] => []
  | afterWs, c :: cs =>
      if isWsChar c then
        if afterWs then collapseWsAux true cs
        else Char.ofNat 95 :: collapseWsAux true cs
      else c :: collapseWsAux false cs

/-- Replace every maximal run of whitespace by a single underscore;
this is `replace(/\s+/g, "_")`. -/
def lcCollapseWs (cs : List Char) : List Char := collapseWsAux false cs

/-- Split a character list at every underscore, keeping empty pieces;
this is `split("_")`. -/
def lcSplitUnderscore : List Char → List Char → List (List Char)
  | [], acc => [acc.reverse]
  | c :: cs, acc =>
      if c = Char.ofNat 95 then acc.reverse :: lcSplitUnderscore cs []
      else lcSplitUnderscore cs (c :: acc)

/-- The `trim` of JavaScript, on `String`. -/
def jsTrim (s : String) : String := String.mk (lcTrim s.data)

/-- The `toLowerCase` of JavaScript, on `String` (ASCII case mapping). -/
def jsToLower (s : String) : String := String.mk (s.data.map Char.toLower)

/-- Replacement of every whitespace run by one underscore, on `String`. -/
def wsToUnderscore (s : String) : String := String.mk (lcCollapseWs s.data)

/-- Replacement of every underscore by a space (`replace(/_/g, " ")`). -/
def underscoreToSpace (s : String) : String :=
  String.mk (s.data.map (fun c => if c = Char.ofNat 95 then Char.ofNat 32 else c))

/-- Stripping of leading underscores followed by removal of every single
and double quote character (code points 39 and 34); this is
`replace(/^_+/, "").replace(/["]|[…]/g, "")` of `getCanonical`. -/
def canonicalClean (s : String) : String :=
  String.mk ((s.data.dropWhile (fun c => c = Char.ofNat 95)).filter
    (fun c => c.toNat != 39 && c.toNat != 34))

/-- Sequence of non-empty underscore-delimited tokens of a string. -/
def nonEmptyTokens (s : String) : List String :=
  ((lcSplitUnderscore s.data []).map String.mk).filter (fun p => p ≠ "")

/-- Transcription of `SpeciesNormalizer.getCanonical`.  A `none` argument is
the JavaScript `null`/`undefined` input; an empty or whitespace-only string
is rejected by the two falsiness guards of the source. -/
def getCanonical (name : Option String) : Option String :=
  match name with
  | none => none
  | some s =>
    if s = "" then none
    else
      let t := jsTrim s
      if t = "" then none
      else
        let cleaned := canonicalClean t
        let parts := nonEmptyTokens cleaned
        match parts with
        | p1 :: p2 :: _ => some (p1 ++ String.mk [Char.ofNat 95] ++ p2)
        | _ => some cleaned

/-- Deduplication keeping the first occurrence of each string, which is the
iteration order of a JavaScript `Set` built by successive insertions. -/
def dedupFirst : List String → List String → List String
  | [], _ => []
  | x :: xs, seen =>
      if x ∈ seen then dedupFirst xs seen else x :: dedupFirst xs (x :: seen)

/-- Transcription of `SpeciesNormalizer.getVariants` (named
`normalizeSpeciesVariants` in the embedded generation). -/
def getVariants (name : String) : List String :=
  if name = "" then []
  else
    let trimmed := jsTrim name
    if trimmed = "" then []
    else
      let und := wsToUnderscore trimmed
      let spc := underscoreToSpace trimmed
      let base := [trimmed, jsToLower trimmed, und, jsToLower und, spc, jsToLower spc]
      let all :=
        match getCanonical (some trimmed) with
        | some c =>
            if c ≠ "" ∧ c ≠ trimmed then
              base ++ [c, jsToLower c, underscoreToSpace c, jsToLower (underscoreToSpace c)]
            else base
        | none => base
      dedupFirst all []

/-- Transcription of `isSpeciesAllowed`: a null or empty allowed set means
no restriction, an absent or empty label is never allowed, and otherwise
some name variant of the label must be in the allowed set. -/
def isSpeciesAllowed (name : Option String) (allowed : List String) : Bool :=
  if allowed.isEmpty then true
  else
    match name with
    | none => false
    | some n => if n = "" then false else (getVariants n).any (fun v => allowed.contains v)

/- ======================= Tree model ======================= -/

/-- Tree node of the active phylogenetic tree: an optional label (present on
leaves in this domain, but any node may carry one), an optional branch
length to the parent (`undefined` in the source is `none` here), and the
ordered list of children.  Parent links of the source are represented by
tree positions (see below); `reassignNodeIDs` makes node ids unique per
tree, so a node id is equivalent to the position of the node. -/
inductive TNode where
  | mk (label : Option String) (branchLength : Option JNum) (children : List TNode)

/-- Label of a node. -/
def TNode.label : TNode → Option String
  | .mk l _ _ => l

/-- Branch length of a node. -/
def TNode.branchLength : TNode → Option JNum
  | .mk _ b _ => b

/-- Children of a node. -/
def TNode.children : TNode → List TNode
  | .mk _ _ cs => cs

/-- Induction principle for `TNode` providing the hypothesis on every child. -/
theorem tnodeInductionOn {motive : TNode → Prop}
    (h : ∀ l b cs, (∀ c ∈ cs, motive c) → motive (TNode.mk l b cs)) : ∀ t, motive t
  | .mk l b cs => h l b cs (fun c hc => tnodeInductionOn h c)
  termination_by t => sizeOf t
  decreasing_by
    have := List.sizeOf_lt_of_mem hc
    simp only [TNode.mk.sizeOf_spec]
    omega

mutual

/-- Labels of the childless nodes of a tree, in traversal order.  This is
the label sequence of `tree.leafList`. -/
def TNode.leafLabels : TNode → List (Option String)
  | .mk l _ [] => [l]
  | .mk _ _ (c :: cs) => leafLabelsList (c :: cs)

/-- Concatenation of the leaf labels of a list of trees. -/
def leafLabelsList : List TNode → List (Option String)
  | [] => []
  | t :: ts => t.leafLabels ++ leafLabelsList ts

end

mutual

/-- Positions (sequences of child indices from the root) of the childless
nodes of a tree, in traversal order; this models `tree.leafList`, each leaf
node standing for its position. -/
def TNode.leafPaths : TNode → List (List ℕ)
  | .mk _ _ [] => [[]]
  | .mk _ _ (c :: cs) => leafPathsList 0 (c :: cs)

/-- Positions of the leaves below each tree of a list, the tree at index
`i` contributing paths prefixed with `i`. -/
def leafPathsList : ℕ → List TNode → List (List ℕ)
  | _, [] => []
  | i, t :: ts => (t.leafPaths.map (fun p => i :: p)) ++ leafPathsList (i + 1) ts

end

/- ----------------------- Pruning ----------------------- -/

mutual

/-- Post-order pass of `pruneTreeToAllowed` below the root: a node that is
childless when visited (an original leaf, or an internal node whose
children were all removed earlier in the pass) is kept exactly when its
label passes `isSpeciesAllowed`; a node with surviving children is kept. -/
def pruneNode (allowed : List String) : TNode → Option TNode
  | .mk l b cs =>
    match cs with
    | [] => if isSpeciesAllowed l allowed then some (.mk l b []) else none
    | c :: rest =>
      match pruneList allowed (c :: rest) with
      | [] => if isSpeciesAllowed l allowed then some (.mk l b []) else none
      | c2 :: rest2 => some (.mk l b (c2 :: rest2))

/-- Pruning of each tree in a list of children, dropping removed ones. -/
def pruneList (allowed : List String) : List TNode → List TNode
  | [] => []
  | t :: ts =>
    match pruneNode allowed t with
    | some t2 => t2 :: pruneList allowed ts
    | none => pruneList allowed ts

end

/-- Root step of the post-order pass: the root itself is never detached
(it has no parent), only its children list is pruned. -/
def pruneRootPass (allowed : List String) : TNode → TNode
  | .mk l b cs => .mk l b (pruneList allowed cs)

/-- The promotion loop of `pruneTreeToAllowed`: while the root is internal
with a single child and its own label is not allowed, the child becomes the
new root. -/
def promoteRoot (allowed : List String) : TNode → TNode
  | .mk l b [c] =>
      if isSpeciesAllowed l allowed then .mk l b [c] else promoteRoot allowed c
  | t => t

/-- Transcription of `pruneTreeToAllowed`: post-order removal pass,
promotion of single-child roots, and finally a root that is itself a
disallowed leaf empties the tree (`tree.root = null`, i.e. `none`). -/
def pruneTreeToAllowed (allowed : List String) (t : TNode) : Option TNode :=
  match promoteRoot allowed (pruneRootPass allowed t) with
  | .mk l b [] => if isSpeciesAllowed l allowed then some (.mk l b []) else none
  | r => some r

/- ----------------------- Snapshots ----------------------- -/

/-- Snapshot node produced by `cloneNodeForSnapshot`: a plain record with a
string label (absent labels become the empty string), a definite branch
length, and snapshot children. -/
inductive Snap where
  | mk (label : String) (branchLength : JNum) (children : List Snap)

/-- Branch length of a snapshot node. -/
def Snap.branchLength : Snap → JNum
  | .mk _ b _ => b

/-- Label of a snapshot node. -/
def Snap.label : Snap → String
  | .mk l _ _ => l

/-- Children of a snapshot node. -/
def Snap.children : Snap → List Snap
  | .mk _ _ cs => cs

mutual

/-- Transcription of `cloneNodeForSnapshot`: the root records branch length
0 regardless of the stored value, every other node records its branch
length with missing values becoming 0 (`node.branchLength ?? 0`), and the
label falls back to the empty string (`node.label || ""`). -/
def cloneNodeForSnapshot : TNode → Bool → Snap
  | .mk l b cs, isRoot =>
      .mk (l.getD "") (if isRoot then .num 0 else b.getD (.num 0)) (cloneChildrenForSnapshot cs)

/-- Snapshot clones of a children list (children are never the root). -/
def cloneChildrenForSnapshot : List TNode → List Snap
  | [] => []
  | c :: cs => cloneNodeForSnapshot c false :: cloneChildrenForSnapshot cs

end

mutual

/-- Structural copy of a snapshot, as performed by `getActiveTreeSnapshot`. -/
def cloneSnap : Snap → Snap
  | .mk l b cs => .mk l b (cloneSnapList cs)

/-- Structural copies of a snapshot list. -/
def cloneSnapList : List Snap → List Snap
  | [] => []
  | s :: ss => cloneSnap s :: cloneSnapList ss

end

/-- Correspondence between a tree node and a non-root snapshot node: the
snapshot keeps the branch length (missing ones becoming 0), the label
(missing ones becoming the empty string), and corresponds child by child. -/
inductive SnapMatches : TNode → Snap → Prop where
  | mk : ∀ l b cs sl sb scs,
      sl = l.getD "" → sb = b.getD (.num 0) →
      List.Forall₂ SnapMatches cs scs →
      SnapMatches (.mk l b cs) (.mk sl sb scs)

/- ======================= Calculator state ======================= -/

/-- Pairwise distance record `{raw, edges, effective}`. -/
structure Metrics where
  raw : JNum
  edges : ℕ
  effective : JNum

/-- Distance cache: the source keys a `Map` by the string
`id1 + "|" + id2`; node ids are unique per tree, so the key is equivalent
to the ordered pair of the two node positions. -/
def Cache : Type := List ℕ × List ℕ → Option Metrics

/-- Cache with no entries (a cleared `Map`). -/
def emptyCache : Cache := fun _ => none

/-- Cache after `Map.set` of one key. -/
def cacheInsert (c : Cache) (k : List ℕ × List ℕ) (m : Metrics) : Cache :=
  fun q => if q = k then some m else c q

/-- Mutable fields of `PhylogeneticDistanceCalculator` used by the distance,
transform, scoring and configuration operations.  Tree nodes are
represented by their positions in `activeTree`. -/
structure CalcState where
  isLoaded : Bool
  activeTree : Option TNode
  nodeIndex : List (String × List ℕ)
  maxPairwiseDistance : JNum
  minPairwiseDistance : JNum
  globalMaxPairwiseDistance : JNum
  currentTargetNode : Option (List ℕ)
  targetMaxDistance : JNum
  targetMinPositiveDistance : JNum
  targetScaleFactor : JNum
  distanceCache : Cache
  transformMode : String
  transformStrength : Option JNum
  latestTreeSnapshot : Option Snap

/- ----------------------- Paths and raw distance ----------------------- -/

/-- Truth of a position denoting a node of the tree. -/
def validPath : TNode → List ℕ → Bool
  | _, [] => true
  | t, i :: rest =>
      match t.children[i]? with
      | some c => validPath c rest
      | none => false

/-- Longest common starting segment of two positions. -/
def lcp : List ℕ → List ℕ → List ℕ
  | a :: as, b :: bs => if a = b then a :: lcp as bs else []
  | _, _ => []

/-- Model of the external `tree.getMRCA([n1, n2])` capability, from the
specification: the most recent common ancestor is the node at which the
two root paths first merge, which is the node at the longest common
starting segment of the two positions. -/
def getMRCA (t : TNode) (p q : List ℕ) : Option (List ℕ) :=
  if validPath t p && validPath t q then some (lcp p q) else none

/-- Nodes along the path from the root to a position, root included, the
walk stopping at a missing child index. -/
def pathSubtrees : TNode → List ℕ → List TNode
  | t, [] => [t]
  | t, i :: rest =>
      match t.children[i]? with
      | some c => t :: pathSubtrees c rest
      | none => [t]

/-- Branch length of a node with the `?? 0` fallback of the source. -/
def nodeBL (n : TNode) : JNum := n.branchLength.getD (.num 0)

/-- Transcription of `distanceToAncestor`: the walk from the node up to but
not including the ancestor sums `branchLength ?? 0`; on positions this is
the sum over the path nodes strictly below the ancestor. -/
noncomputable def distanceToAncestor (t : TNode) (node anc : List ℕ) : JNum :=
  ((pathSubtrees t node).drop (anc.length + 1)).foldl (fun acc n => acc.jadd (nodeBL n)) (.num 0)

/-- Transcription of `edgeCountToAncestor`: number of parent steps from the
node up to the ancestor. -/
def edgeCountToAncestor (node anc : List ℕ) : ℕ := node.length - anc.length

/- ----------------------- Transform and scoring ----------------------- -/

/-- Transcription of `applyDistanceTransform`. -/
noncomputable def applyDistanceTransform (st : CalcState) (rawDistance : JNum) : JNum :=
  if ¬ rawDistance.isFinite ∨ rawDistance.jle (.num 0) then rawDistance
  else
    let mode := if st.transformMode = "" then "linear" else st.transformMode
    let mn := if st.minPairwiseDistance.isFinite then st.minPairwiseDistance else .num 0
    let mx := if st.globalMaxPairwiseDistance.isFinite ∧ (JNum.num 0).jlt st.globalMaxPairwiseDistance
              then st.globalMaxPairwiseDistance else st.maxPairwiseDistance
    if ¬ mx.isFinite ∨ mx.jle ((JNum.num 0).jmax mn) then rawDistance
    else
      let denomLinear := (JNum.num (1 / 10 ^ 12)).jmax (mx.jsub mn)
      let normLinear := (JNum.num 0).jmax ((JNum.num 1).jmin ((rawDistance.jsub mn).jdiv denomLinear))
      if mode = "linear" then mn.jadd (normLinear.jmul (mx.jsub mn))
      else if mode = "log" then
        let amin := ((JNum.num 0).jmax mn).jlog1p
        let amax := ((JNum.num 0).jmax mx).jlog1p
        let a := ((JNum.num 0).jmax rawDistance).jlog1p
        let denomLog := (JNum.num (1 / 10 ^ 12)).jmax (amax.jsub amin)
        let normLog := (JNum.num 0).jmax ((JNum.num 1).jmin ((a.jsub amin).jdiv denomLog))
        let strength :=
          match st.transformStrength with
          | some s => (JNum.num 0).jmax ((JNum.num 1).jmin s)
          | none => JNum.num (3 / 5)
        let norm := (((JNum.num 1).jsub strength).jmul normLinear).jadd (strength.jmul normLog)
        mn.jadd (norm.jmul (mx.jsub mn))
      else rawDistance

/-- Per-target maximum of `distanceToScore`: the target-relative maximum
when a target is active and the statistic is a positive finite number,
otherwise `null`. -/
noncomputable def perTargetMaxD (st : CalcState) : Option JNum :=
  if st.currentTargetNode ≠ none ∧ st.targetMaxDistance.isFinite ∧
      (JNum.num 0).jlt st.targetMaxDistance
  then some st.targetMaxDistance else none

/-- Baseline maximum of `distanceToScore` and of the transform: the global
running maximum when positive and finite, else the last pairwise maximum. -/
noncomputable def baselineMaxD (st : CalcState) : JNum :=
  if st.globalMaxPairwiseDistance.isFinite ∧ (JNum.num 0).jlt st.globalMaxPairwiseDistance
  then st.globalMaxPairwiseDistance else st.maxPairwiseDistance

/-- The `perTargetMax || baselineMax` selection; a per-target maximum is a
positive number, hence truthy, so `||` returns it when present. -/
noncomputable def scoreMaxD (st : CalcState) : JNum :=
  match perTargetMaxD st with
  | some t => t
  | none => baselineMaxD st

/-- Per-target minimum of `distanceToScore`: the target-relative minimum
positive distance when a target is active and the statistic is a positive
finite number, otherwise 0. -/
noncomputable def perTargetMinD (st : CalcState) : JNum :=
  if st.currentTargetNode ≠ none ∧ st.targetMinPositiveDistance.isFinite ∧
      (JNum.num 0).jlt st.targetMinPositiveDistance
  then st.targetMinPositiveDistance else .num 0

/-- Transcription of `distanceToScore`; the argument is `none` for a
`null`/`undefined` input. -/
noncomputable def distanceToScore (st : CalcState) : Option JNum → Option JNum
  | none => none
  | some d =>
    if d.jle (.num 0) then some (.num 100)
    else
      let maxDistance := scoreMaxD st
      if ¬ maxDistance.isFinite ∨ maxDistance.jle (.num 0) then
        some ((JNum.num 95).jmin
          ((JNum.num 5).jmax (((JNum.num 100).jdiv ((JNum.num 1).jadd d)).jround)))
      else
        let perTargetMin := perTargetMinD st
        let clamped := d.jmin maxDistance
        let normalized := (JNum.num 0).jmax ((JNum.num 1).jmin
          ((clamped.jsub perTargetMin).jdiv
            ((JNum.num (1 / 10 ^ 9)).jmax (maxDistance.jsub perTargetMin))))
        let eased := (JNum.num 1).jsub normalized.jpow065
        let score := ((JNum.num 1).jadd (eased.jmul (.num 98))).jround
        some ((JNum.num 1).jmax ((JNum.num 100).jmin score))

/- ----------------------- Lookup, cache, statistics ----------------------- -/

/-- Lookup of one variant in the `nodeIndex` map (association by string). -/
def lookupIndexVariant : List (String × List ℕ) → String → Option (List ℕ)
  | [], _ => none
  | (k, v) :: rest, s => if k = s then some v else lookupIndexVariant rest s

/-- Transcription of `lookupSpecies`: each name variant is tried in turn
against the node index and the first hit is returned. -/
def lookupSpecies (st : CalcState) (name : String) : Option (List ℕ) :=
  if name = "" then none
  else (getVariants name).findSome? (fun v => lookupIndexVariant st.nodeIndex v)

/-- Transcription of `computeDistanceBetweenNodes`. -/
noncomputable def computeDistanceBetweenNodes (st : CalcState) (p1 p2 : List ℕ) : Option Metrics :=
  match st.activeTree with
  | none => none
  | some t =>
    match getMRCA t p1 p2 with
    | none => none
    | some anc =>
      let rawDistance := (distanceToAncestor t p1 anc).jadd (distanceToAncestor t p2 anc)
      let edgeCount := edgeCountToAncestor p1 anc + edgeCountToAncestor p2 anc
      some { raw := rawDistance, edges := edgeCount,
             effective := applyDistanceTransform st rawDistance }

/-- Transcription of `getDistanceForNodes`: consult the cache, else compute
and, if the effective distance is finite, store the record under both key
orderings and raise the running global maximum. -/
noncomputable def getDistanceForNodes (st : CalcState) (p1 p2 : List ℕ) :
    Option Metrics × CalcState :=
  match st.distanceCache (p1, p2) with
  | some m => (some m, st)
  | none =>
    match computeDistanceBetweenNodes st p1 p2 with
    | some m =>
      if m.effective.isFinite then
        let c2 := cacheInsert (cacheInsert st.distanceCache (p1, p2) m) (p2, p1) m
        let g2 := if st.globalMaxPairwiseDistance.jlt m.effective then m.effective
                  else st.globalMaxPairwiseDistance
        (some m, { st with distanceCache := c2, globalMaxPairwiseDistance := g2 })
      else (some m, st)
    | none => (none, st)

/-- Transcription of `getPhylogeneticDistance`. -/
noncomputable def getPhylogeneticDistance (st : CalcState) (species1 species2 : String) :
    Option Metrics × CalcState :=
  if st.isLoaded = false ∨ st.activeTree = none then (none, st)
  else
    match lookupSpecies st species1, lookupSpecies st species2 with
    | some p1, some p2 =>
        if p1 = p2 then (some { raw := .num 0, edges := 0, effective := .num 0 }, st)
        else getDistanceForNodes st p1 p2
    | _, _ => (none, st)

/-- Ordered pairs `(i, j)` with `i < j` of a leaf list, in the order of the
two nested loops of `computeDistanceStats`. -/
def allPairs : List (List ℕ) → List (List ℕ × List ℕ)
  | [] => []
  | x :: xs => (xs.map (fun y => (x, y))) ++ allPairs xs

/-- Loop body of `computeDistanceStats` over leaf pairs, accumulating the
maximum and the minimum positive effective distance. -/
noncomputable def statsPairsLoop :
    CalcState → List (List ℕ × List ℕ) → JNum → JNum → CalcState × JNum × JNum
  | st, [], mx, mn => (st, mx, mn)
  | st, (p, q) :: rest, mx, mn =>
    let r := getDistanceForNodes st p q
    match r.1 with
    | some m =>
      if m.effective.isFinite then
        let mx2 := if mx.jlt m.effective then m.effective else mx
        let mn2 := if (JNum.num 0).jlt m.effective ∧ m.effective.jlt mn then m.effective else mn
        statsPairsLoop r.2 rest mx2 mn2
      else statsPairsLoop r.2 rest mx mn
    | none => statsPairsLoop r.2 rest mx mn

/-- Transcription of `computeDistanceStats`. -/
noncomputable def computeDistanceStats (st : CalcState) : CalcState :=
  match st.activeTree with
  | none =>
    { st with maxPairwiseDistance := .num 0, minPairwiseDistance := .num 0,
              distanceCache := emptyCache }
  | some t =>
    let leaves := t.leafPaths
    if leaves.length < 2 then
      { st with maxPairwiseDistance := .num 0, minPairwiseDistance := .num 0,
                distanceCache := emptyCache }
    else
      let r := statsPairsLoop { st with distanceCache := emptyCache }
        (allPairs leaves) (.num 0) .inf
      let st1 := r.1
      let mn2 := if r.2.2.isFinite then r.2.2 else JNum.num 0
      let st2 := { st1 with maxPairwiseDistance := r.2.1, minPairwiseDistance := mn2 }
      if st2.globalMaxPairwiseDistance.jlt r.2.1 then
        { st2 with globalMaxPairwiseDistance := r.2.1 }
      else st2

/-- Loop body of `computeTargetDistanceStats` over leaves, skipping the
target itself. -/
noncomputable def targetStatsLoop :
    CalcState → List ℕ → List (List ℕ) → JNum → JNum → CalcState × JNum × JNum
  | st, _, [], mx, mn => (st, mx, mn)
  | st, target, leaf :: rest, mx, mn =>
    if leaf = target then targetStatsLoop st target rest mx mn
    else
      let r := getDistanceForNodes st target leaf
      match r.1 with
      | some m =>
        if m.effective.isFinite then
          let mx2 := if mx.jlt m.effective then m.effective else mx
          let mn2 := if (JNum.num 0).jlt m.effective ∧ m.effective.jlt mn then m.effective else mn
          targetStatsLoop r.2 target rest mx2 mn2
        else targetStatsLoop r.2 target rest mx mn
      | none => targetStatsLoop r.2 target rest mx mn

/-- Transcription of `computeTargetDistanceStats`. -/
noncomputable def computeTargetDistanceStats (st : CalcState) : CalcState :=
  match st.activeTree, st.currentTargetNode with
  | some t, some target =>
    let leaves := t.leafPaths
    if leaves.length < 2 then
      { st with targetMaxDistance := .num 0, targetMinPositiveDistance := .num 0,
                targetScaleFactor := .num 0 }
    else
      let r := targetStatsLoop st target leaves (.num 0) .inf
      let mn2 := if r.2.2.isFinite then r.2.2 else .num 0
      let denom := (JNum.num (1 / 10 ^ 6)).jmax (r.2.1.jsub mn2)
      let scale := if mn2.jlt r.2.1 then (JNum.num (Real.log 99)).jdiv denom else .num 0
      let st1 := r.1
      { st1 with
          targetMaxDistance := r.2.1, targetMinPositiveDistance := mn2,
          targetScaleFactor := scale }
  | _, _ =>
    { st with targetMaxDistance := .num 0, targetMinPositiveDistance := .num 0,
              targetScaleFactor := .num 0 }

/-- Transcription of `refreshActiveTreeSnapshot`. -/
def refreshActiveTreeSnapshot (st : CalcState) : CalcState :=
  match st.activeTree with
  | none => { st with latestTreeSnapshot := none }
  | some t => { st with latestTreeSnapshot := some (cloneNodeForSnapshot t true) }

/-- Transcription of `getActiveTreeSnapshot`: `null` when no snapshot is
stored, else a structural copy of the stored snapshot. -/
def getActiveTreeSnapshot (st : CalcState) : Option Snap :=
  match st.latestTreeSnapshot with
  | none => none
  | some s => some (cloneSnap s)

/-- Shared tail of `setTransformMode` and `setTransformStrength` (the two
call sites are textually identical in the source): clear the distance
cache and, when a tree is active, recompute both statistics and refresh
the snapshot. -/
noncomputable def recomputeAfterConfig (st : CalcState) : CalcState :=
  let st2 := { st with distanceCache := emptyCache }
  if st2.activeTree ≠ none then
    refreshActiveTreeSnapshot (computeTargetDistanceStats (computeDistanceStats st2))
  else st2

/-- Transcription of `setTransformMode`; a falsy (empty) mode string returns
immediately, an unknown mode leaves the state untouched. -/
noncomputable def setTransformMode (st : CalcState) (mode : String) : CalcState :=
  if mode = "" then st
  else
    let m := jsToLower mode
    if m = "linear" ∨ m = "log" then
      recomputeAfterConfig
        { st with transformMode := m,
                  transformStrength :=
                    if m = "log" ∧ st.transformStrength = none then some (.num (3 / 5))
                    else st.transformStrength }
    else st

/-- Transcription of `setTransformStrength`; the argument is already a
number (`Number(value)` is the identity there), and a non-finite value
returns immediately. -/
noncomputable def setTransformStrength (st : CalcState) (value : JNum) : CalcState :=
  if ¬ value.isFinite then st
  else
    recomputeAfterConfig
      { st with transformStrength := some ((JNum.num 0).jmax ((JNum.num 1).jmin value)) }

/- ======================= Arithmetic helper lemmas ======================= -/

@[simp] theorem JNum.jle_num_iff {a b : ℝ} : (JNum.num a).jle (.num b) ↔ a ≤ b := Iff.rfl

@[simp] theorem JNum.jlt_num_iff {a b : ℝ} : (JNum.num a).jlt (.num b) ↔ a < b := Iff.rfl

@[simp] theorem JNum.jadd_num (a b : ℝ) : (JNum.num a).jadd (.num b) = .num (a + b) := rfl

@[simp] theorem JNum.jsub_num (a b : ℝ) : (JNum.num a).jsub (.num b) = .num (a - b) := rfl

@[simp] theorem JNum.jmul_num (a b : ℝ) : (JNum.num a).jmul (.num b) = .num (a * b) := rfl

@[simp] theorem JNum.jmax_num (a b : ℝ) : (JNum.num a).jmax (.num b) = .num (max a b) := rfl

@[simp] theorem JNum.jmin_num (a b : ℝ) : (JNum.num a).jmin (.num b) = .num (min a b) := rfl

@[simp] theorem JNum.jround_num (a : ℝ) :
    (JNum.num a).jround = .num ((⌊a + 1 / 2⌋ : ℤ) : ℝ) := rfl

theorem JNum.jdiv_num {a b : ℝ} (hb : b ≠ 0) :
    (JNum.num a).jdiv (.num b) = .num (a / b) := by
  simp [JNum.jdiv, hb]

theorem JNum.jpow065_num {a : ℝ} (ha : 0 ≤ a) :
    (JNum.num a).jpow065 = .num (Real.rpow a (13 / 20)) := by
  simp [JNum.jpow065, not_lt.2 ha]

/- ======================= Sample states for witnesses ======================= -/

/-- Calculator state exactly as after the constructor runs: no tree loaded,
all statistics zero, empty cache, linear mode, no stored strength. -/
noncomputable def stEmpty : CalcState :=
  { isLoaded := false, activeTree := none, nodeIndex := [],
    maxPairwiseDistance := .num 0, minPairwiseDistance := .num 0,
    globalMaxPairwiseDistance := .num 0, currentTargetNode := none,
    targetMaxDistance := .num 0, targetMinPositiveDistance := .num 0,
    targetScaleFactor := .num 0, distanceCache := emptyCache,
    transformMode := "linear", transformStrength := none, latestTreeSnapshot := none }

/-- Sample leaf used by concrete witnesses. -/
noncomputable def leafHomo : TNode := .mk (some "Homo_sapiens") (some (.num 1)) []

/-- Second sample leaf used by concrete witnesses. -/
noncomputable def leafPan : TNode := .mk (some "Pan_troglodytes") (some (.num 2)) []

/-- Two-leaf sample tree used by concrete witnesses. -/
noncomputable def tAB : TNode := .mk none (some (.num 0)) [leafHomo, leafPan]

/-- Loaded sample state with `tAB` active and both leaves indexed. -/
noncomputable def stLoaded : CalcState :=
  { stEmpty with isLoaded := true, activeTree := some tAB,
                 nodeIndex := [("Homo_sapiens", [0]), ("Pan_troglodytes", [1])] }

/- ======================= Claim C7 ======================= -/

/-- C7 (amended).  `getCanonical` returns `null` when the input is null or
trims to empty; otherwise, writing `cleaned` for the trimmed input with
leading underscores stripped and quote characters removed: when `cleaned`
has at least two non-empty underscore-delimited tokens the result is the
first two tokens joined by a single underscore, and when it has fewer than
two non-empty tokens the result is `cleaned` itself (not the single token:
the source returns the cleaned string unchanged in that branch). -/
theorem c7_canonical_reduction :
    getCanonical none = none ∧
    (∀ s : String, jsTrim s = "" → getCanonical (some s) = none) ∧
    (∀ s : String, s ≠ "" → jsTrim s ≠ "" →
      (2 ≤ (nonEmptyTokens (canonicalClean (jsTrim s))).length →
        ∃ p1 p2, (nonEmptyTokens (canonicalClean (jsTrim s))).take 2 = [p1, p2] ∧
          getCanonical (some s) = some (p1 ++ String.mk [Char.ofNat 95] ++ p2)) ∧
      ((nonEmptyTokens (canonicalClean (jsTrim s))).length < 2 →
        getCanonical (some s) = some (canonicalClean (jsTrim s)))) := by
  refine ⟨rfl, ?_, ?_⟩
  · intro s h
    by_cases hs : s = ""
    · simp [getCanonical, hs]
    · simp [getCanonical, hs, h]
  · intro s hs ht
    constructor
    · intro h2
      rcases hp : nonEmptyTokens (canonicalClean (jsTrim s)) with _ | ⟨p1, _ | ⟨p2, rest⟩⟩
      · rw [hp] at h2; simp at h2
      · rw [hp] at h2; simp at h2
      · refine ⟨p1, p2, rfl, ?_⟩
        simp only [getCanonical, hs, ht, if_false, hp]
    · intro h2
      rcases hp : nonEmptyTokens (canonicalClean (jsTrim s)) with _ | ⟨p1, _ | ⟨p2, rest⟩⟩
      · simp only [getCanonical, hs, ht, if_false, hp]
      · simp only [getCanonical, hs, ht, if_false, hp]
      · rw [hp] at h2
        simp only [List.length_cons] at h2
        omega

/-- Witness for the amended C7 theorem at a concrete three-token input. -/
theorem c7_canonical_reduction_witness :
    ("Homo_sapiens_ssp" : String) ≠ "" ∧ jsTrim "Homo_sapiens_ssp" ≠ "" ∧
    2 ≤ (nonEmptyTokens (canonicalClean (jsTrim "Homo_sapiens_ssp"))).length ∧
    (∃ p1 p2, (nonEmptyTokens (canonicalClean (jsTrim "Homo_sapiens_ssp"))).take 2 = [p1, p2] ∧
      getCanonical (some "Homo_sapiens_ssp") = some (p1 ++ String.mk [Char.ofNat 95] ++ p2)) :=
  ⟨by decide, by decide, by decide,
    (c7_canonical_reduction.2.2 "Homo_sapiens_ssp" (by decide) (by decide)).1 (by decide)⟩

/-- Counterexample to C7 as stated: on input `"a_"` the cleaned string has
exactly one non-empty underscore-delimited token, `"a"`, so the claim says
`getCanonical` returns `"a"`; the code returns the cleaned string `"a_"`. -/
theorem c7_canonical_counterexample :
    nonEmptyTokens (canonicalClean (jsTrim "a_")) = ["a"] ∧
    getCanonical (some "a_") = some "a_" ∧ ("a_" : String) ≠ "a" := by
  refine ⟨by decide, by decide, by decide⟩

/- ======================= Frame lemmas ======================= -/

/-- Fields of the state untouched by `getDistanceForNodes` (it only writes
the distance cache and the running global maximum). -/
theorem getDistanceForNodes_frame (st : CalcState) (p q : List ℕ) :
    ((getDistanceForNodes st p q).2).isLoaded = st.isLoaded ∧
    ((getDistanceForNodes st p q).2).activeTree = st.activeTree ∧
    ((getDistanceForNodes st p q).2).nodeIndex = st.nodeIndex ∧
    ((getDistanceForNodes st p q).2).transformStrength = st.transformStrength ∧
    ((getDistanceForNodes st p q).2).transformMode = st.transformMode ∧
    ((getDistanceForNodes st p q).2).currentTargetNode = st.currentTargetNode := by
  unfold getDistanceForNodes
  cases hc : st.distanceCache (p, q) with
  | some m => simp
  | none =>
    cases hm : computeDistanceBetweenNodes st p q with
    | none => simp
    | some m =>
      obtain ⟨raw, edges, eff⟩ := m
      cases eff <;> simp

/-- The pair loop of `computeDistanceStats` leaves the transform strength
unchanged. -/
theorem statsPairsLoop_strength (pairs : List (List ℕ × List ℕ)) :
    ∀ (st : CalcState) (mx mn : JNum),
      ((statsPairsLoop st pairs mx mn).1).transformStrength = st.transformStrength := by
  induction pairs with
  | nil => intro st mx mn; rfl
  | cons pr rest ih =>
    intro st mx mn
    obtain ⟨p, q⟩ := pr
    have hframe := (getDistanceForNodes_frame st p q).2.2.2.1
    simp only [statsPairsLoop]
    split
    · split
      · rw [ih, hframe]
      · rw [ih, hframe]
    · rw [ih, hframe]

/-- The target loop of `computeTargetDistanceStats` leaves the transform
strength unchanged. -/
theorem targetStatsLoop_strength (leaves : List (List ℕ)) :
    ∀ (st : CalcState) (target : List ℕ) (mx mn : JNum),
      ((targetStatsLoop st target leaves mx mn).1).transformStrength = st.transformStrength := by
  induction leaves with
  | nil => intro st target mx mn; rfl
  | cons leaf rest ih =>
    intro st target mx mn
    have hframe := (getDistanceForNodes_frame st target leaf).2.2.2.1
    simp only [targetStatsLoop]
    split
    · exact ih st target _ _
    · split
      · split
        · rw [ih, hframe]
        · rw [ih, hframe]
      · rw [ih, hframe]

/-- Statistics recomputation leaves the transform strength unchanged. -/
theorem computeDistanceStats_strength (st : CalcState) :
    (computeDistanceStats st).transformStrength = st.transformStrength := by
  simp only [computeDistanceStats]
  split
  · rfl
  · split
    · rfl
    · split <;> simp [statsPairsLoop_strength]

/-- Target statistics recomputation leaves the transform strength
unchanged. -/
theorem computeTargetDistanceStats_strength (st : CalcState) :
    (computeTargetDistanceStats st).transformStrength = st.transformStrength := by
  simp only [computeTargetDistanceStats]
  split
  · split
    · rfl
    · simp [targetStatsLoop_strength]
  · rfl

/-- Snapshot refresh leaves the transform strength unchanged. -/
theorem refreshActiveTreeSnapshot_strength (st : CalcState) :
    (refreshActiveTreeSnapshot st).transformStrength = st.transformStrength := by
  unfold refreshActiveTreeSnapshot
  cases st.activeTree <;> rfl

/-- The shared recomputation tail leaves the transform strength unchanged. -/
theorem recomputeAfterConfig_strength (st : CalcState) :
    (recomputeAfterConfig st).transformStrength = st.transformStrength := by
  simp only [recomputeAfterConfig]
  split
  · simp [refreshActiveTreeSnapshot_strength, computeTargetDistanceStats_strength,
      computeDistanceStats_strength]
  · rfl

/- ======================= Claim C8 ======================= -/

/-- C8.  A transform mode whose lowercase form is neither `linear` nor
`log` (including the falsy empty string) leaves the whole calculator state
unchanged, and a non-finite strength value leaves the whole state
unchanged. -/
theorem c8_config_error_atomic :
    (∀ (st : CalcState) (mode : String),
      jsToLower mode ≠ "linear" → jsToLower mode ≠ "log" → setTransformMode st mode = st) ∧
    (∀ (st : CalcState) (v : JNum), ¬ v.isFinite → setTransformStrength st v = st) := by
  constructor
  · intro st mode h1 h2
    simp only [setTransformMode]
    split
    · rfl
    · split
      · next hlin => exact absurd hlin (not_or.2 ⟨h1, h2⟩)
      · rfl
  · intro st v hv
    unfold setTransformStrength
    split
    · rfl
    · next h => exact absurd hv h

/-- Witness for C8 at the unknown mode `cubic` and the strength `NaN`. -/
theorem c8_config_error_atomic_witness :
    jsToLower "cubic" ≠ "linear" ∧ jsToLower "cubic" ≠ "log" ∧ ¬ JNum.nan.isFinite ∧
    setTransformMode stEmpty "cubic" = stEmpty ∧
    setTransformStrength stEmpty JNum.nan = stEmpty :=
  ⟨by decide, by decide, by simp,
    c8_config_error_atomic.1 stEmpty "cubic" (by decide) (by decide),
    c8_config_error_atomic.2 stEmpty JNum.nan (by simp)⟩

/- ======================= Claim C10 ======================= -/

/-- C10.  For every finite numeric input `v`, `setTransformStrength` stores
exactly `min(1, max(0, v))` as the transform strength, a value always in
`[0, 1]`; out-of-range finite values are clamped, not rejected. -/
theorem c10_strength_clamp (st : CalcState) (v : ℝ) :
    (setTransformStrength st (.num v)).transformStrength =
      some (.num (min 1 (max 0 v))) ∧
    0 ≤ min 1 (max 0 v) ∧ min 1 (max 0 v) ≤ 1 := by
  refine ⟨?_, le_min zero_le_one (le_max_left 0 v), min_le_left 1 _⟩
  have hfin : (JNum.num v).isFinite := by simp
  unfold setTransformStrength
  simp only [hfin, not_true, if_false]
  rw [recomputeAfterConfig_strength]
  simp only [JNum.jmin_num, JNum.jmax_num]
  have hdist : max 0 (min 1 v) = min 1 (max 0 v) := by
    rw [max_min_distrib_left, max_eq_right zero_le_one]
  rw [hdist]

/-- Witness for C10 at the out-of-range input `5`. -/
theorem c10_strength_clamp_witness :
    (setTransformStrength stEmpty (.num 5)).transformStrength =
      some (.num (min 1 (max 0 5))) ∧
    0 ≤ min 1 (max 0 (5 : ℝ)) ∧ min 1 (max 0 (5 : ℝ)) ≤ 1 :=
  c10_strength_clamp stEmpty 5

/- ======================= Claim C5 ======================= -/

/-- Closed form of the linear branch of `applyDistanceTransform` for a
positive finite input, finite statistics, and a positive global maximum
above `max 0 min`. -/
theorem applyDistanceTransform_linear (st : CalcState) (mn mx d : ℝ)
    (hmode : st.transformMode = "linear")
    (hmin : st.minPairwiseDistance = .num mn)
    (hmax : st.globalMaxPairwiseDistance = .num mx)
    (hd : 0 < d) (hmx : 0 < mx) (hgt : max 0 mn < mx) :
    applyDistanceTransform st (.num d) =
      .num (mn + (max 0 (min 1 ((d - mn) / max (1 / 10 ^ 12) (mx - mn)))) * (mx - mn)) := by
  have hden : max (1 / 10 ^ 12 : ℝ) (mx - mn) ≠ 0 := by positivity
  have hlin : ("linear" : String) ≠ "" := by decide
  simp only [applyDistanceTransform, hmode, hmin, hmax, JNum.isFinite, JNum.jle_num_iff,
    JNum.jlt_num_iff, JNum.jmax_num, JNum.jmin_num, JNum.jsub_num, JNum.jadd_num,
    JNum.jmul_num, JNum.jdiv_num hden, not_true, false_or, true_and, if_true, if_false,
    not_le.2 hd, not_le.2 hgt, hmx, hlin, eq_self_iff_true]

/-- C5 (amended).  Non-positive or non-finite input passes through the
transform unchanged in every mode; and in linear mode, when the finite
configured minimum is strictly below the finite, positive configured
maximum and the range `max - min` is at least the `1e-12` denominator
floor, applying the transform to the maximum returns that maximum.  (When
`0 < max - min < 1e-12` the epsilon floor shrinks the result below the
maximum, which is what the counterexample exhibits.) -/
theorem c5_transform_boundary :
    (∀ (st : CalcState) (x : JNum),
      ¬ x.isFinite ∨ x.jle (.num 0) → applyDistanceTransform st x = x) ∧
    (∀ (st : CalcState) (mn mx : ℝ), st.transformMode = "linear" →
      st.minPairwiseDistance = .num mn → st.globalMaxPairwiseDistance = .num mx →
      mn < mx → 0 < mx → 1 / 10 ^ 12 ≤ mx - mn →
      applyDistanceTransform st (.num mx) = .num mx) := by
  constructor
  · intro st x h
    unfold applyDistanceTransform
    rw [if_pos h]
  · intro st mn mx hmode hmin hmax h1 h2 h3
    have hgt : max 0 mn < mx := max_lt h2 h1
    rw [applyDistanceTransform_linear st mn mx mx hmode hmin hmax h2 h2 hgt]
    rw [max_eq_right h3, div_self (by linarith : mx - mn ≠ 0)]
    congr 1
    simp

/-- State exhibiting the C5 counterexample: linear mode with minimum 0 and
global maximum `1e-13`, inside the epsilon floor of the denominator. -/
noncomputable def stC5 : CalcState :=
  { stEmpty with globalMaxPairwiseDistance := .num (1 / 10 ^ 13) }

/-- Counterexample to C5 as stated: with minimum 0 strictly below maximum
`1e-13`, the linear transform applied to the maximum returns `1e-14`, not
the maximum, because the normalization denominator is floored at `1e-12`. -/
theorem c5_transform_boundary_counterexample :
    stC5.transformMode = "linear" ∧ stC5.minPairwiseDistance = .num 0 ∧
    stC5.globalMaxPairwiseDistance = .num (1 / 10 ^ 13) ∧ (0 : ℝ) < 1 / 10 ^ 13 ∧
    applyDistanceTransform stC5 (.num (1 / 10 ^ 13)) = .num (1 / 10 ^ 14) ∧
    (1 / 10 ^ 14 : ℝ) ≠ 1 / 10 ^ 13 := by
  refine ⟨rfl, rfl, rfl, by norm_num, ?_, by norm_num⟩
  rw [applyDistanceTransform_linear stC5 0 (1 / 10 ^ 13) (1 / 10 ^ 13) rfl rfl rfl
    (by norm_num) (by norm_num) (by norm_num)]
  rw [show max (1 / 10 ^ 12 : ℝ) (1 / 10 ^ 13 - 0) = 1 / 10 ^ 12 from max_eq_left (by norm_num)]
  rw [show ((1 / 10 ^ 13 - 0 : ℝ) / (1 / 10 ^ 12)) = 1 / 10 by norm_num]
  rw [min_eq_right (by norm_num : (1 / 10 : ℝ) ≤ 1), max_eq_right (by norm_num : (0:ℝ) ≤ 1 / 10)]
  congr 1
  norm_num

/-- State for the C5 witness: linear mode, minimum 0, global maximum 2. -/
noncomputable def stC5b : CalcState :=
  { stEmpty with globalMaxPairwiseDistance := .num 2 }

/-- Witness for the amended C5 at a non-finite input and at the maximum of
a well-separated range. -/
theorem c5_transform_boundary_witness :
    (¬ JNum.inf.isFinite ∨ JNum.inf.jle (.num 0)) ∧
    applyDistanceTransform stEmpty JNum.inf = JNum.inf ∧
    stC5b.transformMode = "linear" ∧ stC5b.minPairwiseDistance = .num 0 ∧
    stC5b.globalMaxPairwiseDistance = .num 2 ∧ (0 : ℝ) < 2 ∧ (1 / 10 ^ 12 : ℝ) ≤ 2 - 0 ∧
    applyDistanceTransform stC5b (.num 2) = .num 2 :=
  ⟨Or.inl (by simp), c5_transform_boundary.1 stEmpty JNum.inf (Or.inl (by simp)),
    rfl, rfl, rfl, by norm_num, by norm_num,
    c5_transform_boundary.2 stC5b 0 2 rfl rfl rfl (by norm_num) (by norm_num) (by norm_num)⟩

/- ======================= Claim C1 ======================= -/

/-- C1.  For every species name resolving in the active tree of a loaded
calculator, the distance of the species to itself is the record
`{raw: 0, edges: 0, effective: 0}` (and the state is untouched), and
`distanceToScore 0` is `100` in every state. -/
theorem c1_identity (st : CalcState) (s : String) (p : List ℕ)
    (h1 : st.isLoaded = true) (h2 : st.activeTree ≠ none)
    (h3 : lookupSpecies st s = some p) :
    (getPhylogeneticDistance st s s).1 =
      some { raw := .num 0, edges := 0, effective := .num 0 } ∧
    (getPhylogeneticDistance st s s).2 = st ∧
    (∀ st2 : CalcState, distanceToScore st2 (some (.num 0)) = some (.num 100)) := by
  have hguard : ¬ (st.isLoaded = false ∨ st.activeTree = none) := by
    rw [h1]
    simp [h2]
  refine ⟨?_, ?_, ?_⟩
  · unfold getPhylogeneticDistance
    rw [if_neg hguard, h3]
    simp
  · unfold getPhylogeneticDistance
    rw [if_neg hguard, h3]
    simp
  · intro st2
    simp only [distanceToScore]
    rw [if_pos (show (JNum.num 0).jle (.num 0) from le_refl (0 : ℝ))]

/-- Witness for C1 on the loaded two-species sample state. -/
theorem c1_identity_witness :
    stLoaded.isLoaded = true ∧ stLoaded.activeTree ≠ none ∧
    lookupSpecies stLoaded "Homo_sapiens" = some [0] ∧
    ((getPhylogeneticDistance stLoaded "Homo_sapiens" "Homo_sapiens").1 =
      some { raw := .num 0, edges := 0, effective := .num 0 } ∧
    (getPhylogeneticDistance stLoaded "Homo_sapiens" "Homo_sapiens").2 = stLoaded ∧
    (∀ st2 : CalcState, distanceToScore st2 (some (.num 0)) = some (.num 100))) :=
  ⟨rfl, by simp [stLoaded, stEmpty], by decide,
    c1_identity stLoaded "Homo_sapiens" [0] rfl (by simp [stLoaded, stEmpty]) (by decide)⟩

/- ======================= Claim C4 ======================= -/

/-- Closed form of the statistics-free fallback branch of `distanceToScore`
for a positive finite distance: `min(95, max(5, round(100 / (1 + d))))`. -/
noncomputable def fallbackScore (d : ℝ) : ℝ :=
  min 95 (max 5 ((⌊100 / (1 + d) + 1 / 2⌋ : ℤ) : ℝ))

/-- Closed form of the eased branch of `distanceToScore` as a function of
the selected maximum `M`, the per-target minimum `p`, and the already
clamped distance `c`. -/
noncomputable def coreScore (M p c : ℝ) : ℝ :=
  max 1 (min 100
    ((⌊1 + (1 - Real.rpow (max 0 (min 1 ((c - p) / max (1 / 10 ^ 9) (M - p)))) (13 / 20)) * 98
        + 1 / 2⌋ : ℤ) : ℝ))

theorem fallbackScore_bounds (d : ℝ) :
    ∃ n : ℤ, fallbackScore d = (n : ℝ) ∧ 5 ≤ n ∧ n ≤ 95 := by
  refine ⟨min 95 (max 5 ⌊100 / (1 + d) + 1 / 2⌋), ?_, ?_, min_le_left _ _⟩
  · unfold fallbackScore
    push_cast
    rfl
  · exact le_min (by norm_num) (le_max_left _ _)

theorem coreScore_bounds (M p c : ℝ) :
    ∃ n : ℤ, coreScore M p c = (n : ℝ) ∧ 1 ≤ n ∧ n ≤ 100 := by
  refine ⟨max 1 (min 100 ⌊1 + (1 - Real.rpow (max 0 (min 1 ((c - p) / max (1 / 10 ^ 9) (M - p))))
    (13 / 20)) * 98 + 1 / 2⌋), ?_, le_max_left _ _, ?_⟩
  · unfold coreScore
    push_cast
    rfl
  · exact max_le (by norm_num) (min_le_left _ _)

/-- Per-target minimum is always a finite number. -/
theorem perTargetMinD_shape (st : CalcState) : ∃ p : ℝ, perTargetMinD st = .num p := by
  unfold perTargetMinD
  split
  · next h =>
    obtain ⟨-, hfin, -⟩ := h
    cases hv : st.targetMinPositiveDistance with
    | num v => exact ⟨v, rfl⟩
    | inf => rw [hv] at hfin; simp at hfin
    | ninf => rw [hv] at hfin; simp at hfin
    | nan => rw [hv] at hfin; simp at hfin
  · exact ⟨0, rfl⟩

/-- Positive selected maximum exists exactly when the fallback guard fails. -/
theorem scoreMaxD_pos_of_not_guard (st : CalcState)
    (hg : ¬ (¬ (scoreMaxD st).isFinite ∨ (scoreMaxD st).jle (.num 0))) :
    ∃ M : ℝ, scoreMaxD st = .num M ∧ 0 < M := by
  push_neg at hg
  obtain ⟨hfin, hle⟩ := hg
  cases hv : scoreMaxD st with
  | num v =>
    refine ⟨v, rfl, ?_⟩
    rw [hv] at hle
    exact not_le.1 hle
  | inf => rw [hv] at hfin; simp at hfin
  | ninf => rw [hv] at hfin; simp at hfin
  | nan => rw [hv] at hfin; simp at hfin

/-- Fallback branch evaluation at a positive finite distance. -/
theorem distanceToScore_fallback (st : CalcState) (d : ℝ) (hd : 0 < d)
    (hg : ¬ (scoreMaxD st).isFinite ∨ (scoreMaxD st).jle (.num 0)) :
    distanceToScore st (some (.num d)) = some (.num (fallbackScore d)) := by
  have hne : (1 + d) ≠ 0 := by linarith
  simp only [distanceToScore]
  rw [if_neg (show ¬ (JNum.num d).jle (.num 0) from not_le.2 hd)]
  rw [if_pos hg]
  simp only [JNum.jadd_num, JNum.jdiv_num hne, JNum.jround_num, JNum.jmax_num, JNum.jmin_num]
  rfl

/-- Fallback branch evaluation at `Infinity`: the score is 5. -/
theorem distanceToScore_fallback_inf (st : CalcState)
    (hg : ¬ (scoreMaxD st).isFinite ∨ (scoreMaxD st).jle (.num 0)) :
    distanceToScore st (some .inf) = some (.num 5) := by
  simp only [distanceToScore]
  rw [if_neg (show ¬ (JNum.inf).jle (.num 0) from not_false)]
  rw [if_pos hg]
  have h1 : (JNum.num 1).jadd .inf = .inf := rfl
  have h2 : (JNum.num 100).jdiv .inf = .num 0 := rfl
  rw [h1, h2, JNum.jround_num, JNum.jmax_num, JNum.jmin_num]
  norm_num

/-- Eased branch evaluation at a positive finite distance. -/
theorem distanceToScore_eased (st : CalcState) (M p : ℝ)
    (hM : scoreMaxD st = .num M) (hM0 : 0 < M) (hp : perTargetMinD st = .num p)
    (d : ℝ) (hd : 0 < d) :
    distanceToScore st (some (.num d)) = some (.num (coreScore M p (min d M))) := by
  have hden : max (1 / 10 ^ 9 : ℝ) (M - p) ≠ 0 := by positivity
  have hclamp : (0 : ℝ) ≤ max 0 (min 1 ((min d M - p) / max (1 / 10 ^ 9) (M - p))) :=
    le_max_left _ _
  simp only [distanceToScore, hM, hp]
  rw [if_neg (show ¬ (JNum.num d).jle (.num 0) from not_le.2 hd)]
  rw [if_neg (show ¬ (¬ (JNum.num M).isFinite ∨ (JNum.num M).jle (.num 0)) from by
    simp [not_le.2 hM0])]
  simp only [JNum.jmin_num, JNum.jsub_num, JNum.jmax_num, JNum.jdiv_num hden,
    JNum.jpow065_num hclamp, JNum.jmul_num, JNum.jadd_num, JNum.jround_num]
  rfl

/-- Eased branch evaluation at `Infinity`: the distance clamps to `M`. -/
theorem distanceToScore_eased_inf (st : CalcState) (M p : ℝ)
    (hM : scoreMaxD st = .num M) (hM0 : 0 < M) (hp : perTargetMinD st = .num p) :
    distanceToScore st (some .inf) = some (.num (coreScore M p M)) := by
  have hden : max (1 / 10 ^ 9 : ℝ) (M - p) ≠ 0 := by positivity
  have hclamp : (0 : ℝ) ≤ max 0 (min 1 ((M - p) / max (1 / 10 ^ 9) (M - p))) :=
    le_max_left _ _
  simp only [distanceToScore, hM, hp]
  rw [if_neg (show ¬ (JNum.inf).jle (.num 0) from not_false)]
  rw [if_neg (show ¬ (¬ (JNum.num M).isFinite ∨ (JNum.num M).jle (.num 0)) from by
    simp [not_le.2 hM0])]
  have hcl : (JNum.inf).jmin (.num M) = .num M := rfl
  rw [hcl]
  simp only [JNum.jsub_num, JNum.jmax_num, JNum.jmin_num, JNum.jdiv_num hden,
    JNum.jpow065_num hclamp, JNum.jmul_num, JNum.jadd_num, JNum.jround_num]
  rfl

/-- C4 (amended).  `distanceToScore` returns `null` exactly on
`null`/`undefined` input; `NaN` propagates to `NaN` (this is the one
numeric input not yielding a score, exhibited by the counterexample);
every other numeric input, including the infinities, yields an integer in
`[1, 100]`; inputs `<= 0` yield exactly `100`; and when no usable selected
maximum exists a positive finite `d` yields
`min(95, max(5, round(100 / (1 + d))))`. -/
theorem c4_score_contract (st : CalcState) :
    distanceToScore st none = none ∧
    (∀ x : JNum, distanceToScore st (some x) ≠ none) ∧
    (∀ x : JNum, x ≠ .nan →
      ∃ n : ℤ, distanceToScore st (some x) = some (.num n) ∧ 1 ≤ n ∧ n ≤ 100) ∧
    (∀ x : JNum, x.jle (.num 0) → distanceToScore st (some x) = some (.num 100)) ∧
    (∀ d : ℝ, 0 < d → ¬ (scoreMaxD st).isFinite ∨ (scoreMaxD st).jle (.num 0) →
      distanceToScore st (some (.num d)) = some (.num (fallbackScore d))) := by
  refine ⟨rfl, ?_, ?_, ?_, ?_⟩
  · intro x
    simp only [distanceToScore]
    split
    · simp
    · split
      · simp
      · simp
  · intro x hx
    by_cases hguard : ¬ (scoreMaxD st).isFinite ∨ (scoreMaxD st).jle (.num 0)
    · cases x with
      | nan => exact absurd rfl hx
      | ninf =>
        refine ⟨100, ?_, by norm_num, by norm_num⟩
        have : (JNum.ninf).jle (.num 0) := trivial
        simp only [distanceToScore]
        rw [if_pos this]
        norm_num
      | inf =>
        refine ⟨5, ?_, by norm_num, by norm_num⟩
        rw [distanceToScore_fallback_inf st hguard]
        norm_num
      | num d =>
        by_cases hd : d ≤ 0
        · refine ⟨100, ?_, by norm_num, by norm_num⟩
          simp only [distanceToScore]
          rw [if_pos (show (JNum.num d).jle (.num 0) from hd)]
          norm_num
        · obtain ⟨n, hn, h5, h95⟩ := fallbackScore_bounds d
          refine ⟨n, ?_, by omega, by omega⟩
          rw [distanceToScore_fallback st d (not_le.1 hd) hguard, hn]
    · obtain ⟨M, hM, hM0⟩ := scoreMaxD_pos_of_not_guard st hguard
      obtain ⟨p, hp⟩ := perTargetMinD_shape st
      cases x with
      | nan => exact absurd rfl hx
      | ninf =>
        refine ⟨100, ?_, by norm_num, by norm_num⟩
        have : (JNum.ninf).jle (.num 0) := trivial
        simp only [distanceToScore]
        rw [if_pos this]
        norm_num
      | inf =>
        obtain ⟨n, hn, h1, h100⟩ := coreScore_bounds M p M
        refine ⟨n, ?_, h1, h100⟩
        rw [distanceToScore_eased_inf st M p hM hM0 hp, hn]
      | num d =>
        by_cases hd : d ≤ 0
        · refine ⟨100, ?_, by norm_num, by norm_num⟩
          simp only [distanceToScore]
          rw [if_pos (show (JNum.num d).jle (.num 0) from hd)]
          norm_num
        · obtain ⟨n, hn, h1, h100⟩ := coreScore_bounds M p (min d M)
          refine ⟨n, ?_, h1, h100⟩
          rw [distanceToScore_eased st M p hM hM0 hp d (not_le.1 hd), hn]
  · intro x h
    simp only [distanceToScore]
    rw [if_pos h]
  · intro d hd hg
    exact distanceToScore_fallback st d hd hg

/-- Counterexample to C4 as stated: the numeric input `NaN` is neither
`null` nor `undefined`, yet the score is `NaN`, not an integer in
`[1, 100]`. -/
theorem c4_score_counterexample :
    distanceToScore stEmpty (some .nan) = some .nan ∧
    ¬ ∃ n : ℤ, distanceToScore stEmpty (some .nan) = some (.num n) ∧ 1 ≤ n ∧ n ≤ 100 := by
  have h1 : perTargetMaxD stEmpty = none := by
    unfold perTargetMaxD
    rw [if_neg]
    rintro ⟨h, -⟩
    exact h rfl
  have h2 : baselineMaxD stEmpty = .num 0 := by
    unfold baselineMaxD
    rw [if_neg]
    · rfl
    · rintro ⟨-, h⟩
      exact lt_irrefl (0 : ℝ) h
  have hmax : scoreMaxD stEmpty = .num 0 := by
    unfold scoreMaxD
    rw [h1, h2]
  have h : distanceToScore stEmpty (some .nan) = some .nan := by
    simp only [distanceToScore, hmax]
    rw [if_neg (show ¬ (JNum.nan).jle (.num 0) from not_false)]
    rw [if_pos (Or.inr (show (JNum.num 0).jle (.num 0) from le_refl (0 : ℝ)))]
    rfl
  refine ⟨h, ?_⟩
  rintro ⟨n, hn, -, -⟩
  rw [h] at hn
  exact JNum.noConfusion (Option.some.inj hn)

/-- Witness for the amended C4 on the empty sample state, exercising the
null, negative, and fallback clauses at concrete inputs. -/
theorem c4_score_contract_witness :
    distanceToScore stEmpty none = none ∧
    distanceToScore stEmpty (some (.num (-3))) ≠ none ∧
    JNum.inf ≠ JNum.nan ∧
    (∃ n : ℤ, distanceToScore stEmpty (some .inf) = some (.num n) ∧ 1 ≤ n ∧ n ≤ 100) ∧
    (JNum.num (-3)).jle (.num 0) ∧
    distanceToScore stEmpty (some (.num (-3))) = some (.num 100) ∧
    (0 : ℝ) < 3 ∧
    distanceToScore stEmpty (some (.num 3)) = some (.num (fallbackScore 3)) := by
  have hguard : ¬ (scoreMaxD stEmpty).isFinite ∨ (scoreMaxD stEmpty).jle (.num 0) := by
    have h1 : perTargetMaxD stEmpty = none := by
      unfold perTargetMaxD
      rw [if_neg]
      rintro ⟨h, -⟩
      exact h rfl
    have h2 : baselineMaxD stEmpty = .num 0 := by
      unfold baselineMaxD
      rw [if_neg]
      · rfl
      · rintro ⟨-, h⟩
        exact lt_irrefl (0 : ℝ) h
    have hmax : scoreMaxD stEmpty = .num 0 := by
      unfold scoreMaxD
      rw [h1, h2]
    rw [hmax]
    exact Or.inr (le_refl (0 : ℝ))
  refine ⟨(c4_score_contract stEmpty).1, (c4_score_contract stEmpty).2.1 _,
    fun h => JNum.noConfusion h, (c4_score_contract stEmpty).2.2.1 .inf (fun h => JNum.noConfusion h),
    show (-3 : ℝ) ≤ 0 by norm_num,
    (c4_score_contract stEmpty).2.2.2.1 (.num (-3)) (show (-3 : ℝ) ≤ 0 by norm_num),
    by norm_num,
    (c4_score_contract stEmpty).2.2.2.2 3 (by norm_num) hguard⟩

/- ======================= Claim C3 ======================= -/

theorem fallbackScore_le_95 (d : ℝ) : fallbackScore d ≤ 95 := min_le_left _ _

theorem coreScore_le_100 (M p c : ℝ) : coreScore M p c ≤ 100 := by
  obtain ⟨n, hn, -, h100⟩ := coreScore_bounds M p c
  rw [hn]
  exact_mod_cast h100

/-- The fallback curve is non-increasing on positive distances. -/
theorem fallbackScore_anti {x y : ℝ} (hx : 0 < x) (hxy : x ≤ y) :
    fallbackScore y ≤ fallbackScore x := by
  unfold fallbackScore
  have h1 : 100 / (1 + y) ≤ 100 / (1 + x) := by
    apply div_le_div_of_nonneg_left (by norm_num) (by linarith) (by linarith)
  have h2 : (⌊100 / (1 + y) + 1 / 2⌋ : ℤ) ≤ ⌊100 / (1 + x) + 1 / 2⌋ :=
    Int.floor_le_floor (by linarith)
  exact min_le_min le_rfl (max_le_max le_rfl (by exact_mod_cast h2))

/-- The eased curve is non-increasing in the clamped distance. -/
theorem coreScore_anti (M p : ℝ) {cx cy : ℝ} (h : cx ≤ cy) :
    coreScore M p cy ≤ coreScore M p cx := by
  unfold coreScore
  have hden : (0 : ℝ) < max (1 / 10 ^ 9) (M - p) :=
    lt_of_lt_of_le (by norm_num) (le_max_left _ _)
  have h1 : (cx - p) / max (1 / 10 ^ 9) (M - p) ≤ (cy - p) / max (1 / 10 ^ 9) (M - p) :=
    (div_le_div_right hden).2 (by linarith)
  have h2 : max 0 (min 1 ((cx - p) / max (1 / 10 ^ 9) (M - p))) ≤
      max 0 (min 1 ((cy - p) / max (1 / 10 ^ 9) (M - p))) :=
    max_le_max le_rfl (min_le_min le_rfl h1)
  have h3 : Real.rpow (max 0 (min 1 ((cx - p) / max (1 / 10 ^ 9) (M - p)))) (13 / 20) ≤
      Real.rpow (max 0 (min 1 ((cy - p) / max (1 / 10 ^ 9) (M - p)))) (13 / 20) :=
    Real.rpow_le_rpow (le_max_left _ _) h2 (by norm_num)
  have h4 : (⌊1 + (1 - Real.rpow (max 0 (min 1 ((cy - p) / max (1 / 10 ^ 9) (M - p))))
        (13 / 20)) * 98 + 1 / 2⌋ : ℤ) ≤
      ⌊1 + (1 - Real.rpow (max 0 (min 1 ((cx - p) / max (1 / 10 ^ 9) (M - p))))
        (13 / 20)) * 98 + 1 / 2⌋ :=
    Int.floor_le_floor (by nlinarith)
  exact max_le_max le_rfl (min_le_min le_rfl (by exact_mod_cast h4))

/-- C3.  For a fixed calculator state, `distanceToScore` is non-increasing
in its finite distance argument, across the `<= 0` branch, the fallback
branch, and the eased branch. -/
theorem c3_score_monotone (st : CalcState) (x y : ℝ) (hxy : x < y) :
    ∃ sx sy : ℝ, distanceToScore st (some (.num x)) = some (.num sx) ∧
      distanceToScore st (some (.num y)) = some (.num sy) ∧ sy ≤ sx := by
  by_cases hy : y ≤ 0
  · have hx : x ≤ 0 := le_trans hxy.le hy
    refine ⟨100, 100, ?_, ?_, le_refl _⟩
    · simp only [distanceToScore]
      rw [if_pos (show (JNum.num x).jle (.num 0) from hx)]
    · simp only [distanceToScore]
      rw [if_pos (show (JNum.num y).jle (.num 0) from hy)]
  · push_neg at hy
    by_cases hguard : ¬ (scoreMaxD st).isFinite ∨ (scoreMaxD st).jle (.num 0)
    · by_cases hx : x ≤ 0
      · refine ⟨100, fallbackScore y, ?_, distanceToScore_fallback st y hy hguard, ?_⟩
        · simp only [distanceToScore]
          rw [if_pos (show (JNum.num x).jle (.num 0) from hx)]
        · exact le_trans (fallbackScore_le_95 y) (by norm_num)
      · push_neg at hx
        exact ⟨fallbackScore x, fallbackScore y, distanceToScore_fallback st x hx hguard,
          distanceToScore_fallback st y hy hguard, fallbackScore_anti hx hxy.le⟩
    · obtain ⟨M, hM, hM0⟩ := scoreMaxD_pos_of_not_guard st hguard
      obtain ⟨p, hp⟩ := perTargetMinD_shape st
      by_cases hx : x ≤ 0
      · refine ⟨100, coreScore M p (min y M), ?_,
          distanceToScore_eased st M p hM hM0 hp y hy, coreScore_le_100 M p _⟩
        simp only [distanceToScore]
        rw [if_pos (show (JNum.num x).jle (.num 0) from hx)]
      · push_neg at hx
        exact ⟨coreScore M p (min x M), coreScore M p (min y M),
          distanceToScore_eased st M p hM hM0 hp x hx,
          distanceToScore_eased st M p hM hM0 hp y hy,
          coreScore_anti M p (min_le_min hxy.le le_rfl)⟩

/-- Witness for C3 at the concrete pair `1 < 2`. -/
theorem c3_score_monotone_witness :
    (1 : ℝ) < 2 ∧
    ∃ sx sy : ℝ, distanceToScore stEmpty (some (.num 1)) = some (.num sx) ∧
      distanceToScore stEmpty (some (.num 2)) = some (.num sy) ∧ sy ≤ sx :=
  ⟨by norm_num, c3_score_monotone stEmpty 1 2 (by norm_num)⟩

/- ======================= Claim C9 ======================= -/

/-- Induction principle for `Snap` providing the hypothesis on children. -/
theorem snapInductionOn {motive : Snap → Prop}
    (h : ∀ l b cs, (∀ c ∈ cs, motive c) → motive (Snap.mk l b cs)) : ∀ s, motive s
  | .mk l b cs => h l b cs (fun c hc => snapInductionOn h c)
  termination_by s => sizeOf s
  decreasing_by
    have := List.sizeOf_lt_of_mem hc
    simp only [Snap.mk.sizeOf_spec]
    omega

/-- The snapshot clone list is a map of the node clone. -/
theorem cloneSnapList_eq (ss : List Snap) : cloneSnapList ss = ss.map cloneSnap := by
  induction ss with
  | nil => rfl
  | cons s rest ih => simp [cloneSnapList, ih]

/-- The children clone list is a map of the non-root node clone. -/
theorem cloneChildrenForSnapshot_eq (cs : List TNode) :
    cloneChildrenForSnapshot cs = cs.map (fun c => cloneNodeForSnapshot c false) := by
  induction cs with
  | nil => rfl
  | cons c rest ih => simp [cloneChildrenForSnapshot, ih]

/-- A pointwise relation with a function gives `Forall₂` against the map. -/
theorem forall₂_map_self {α β : Type} {R : α → β → Prop} (f : α → β) (cs : List α)
    (h : ∀ c ∈ cs, R c (f c)) : List.Forall₂ R cs (cs.map f) := by
  induction cs with
  | nil => exact List.Forall₂.nil
  | cons c rest ih =>
    exact List.Forall₂.cons (h c (List.mem_cons_self c rest))
      (ih (fun d hd => h d (List.mem_cons_of_mem c hd)))

/-- The structural copy performed by `getActiveTreeSnapshot` is the
identity. -/
theorem cloneSnap_id : ∀ s : Snap, cloneSnap s = s := by
  intro s
  induction s using snapInductionOn with
  | h l b cs ih =>
    simp only [cloneSnap, cloneSnapList_eq]
    congr 1
    calc cs.map cloneSnap = cs.map id := List.map_congr_left ih
    _ = cs := List.map_id cs

/-- Every non-root clone corresponds to its source node. -/
theorem cloneNode_matches : ∀ t : TNode, SnapMatches t (cloneNodeForSnapshot t false) := by
  intro t
  induction t using tnodeInductionOn with
  | h l b cs ih =>
    simp only [cloneNodeForSnapshot, Bool.false_eq_true, if_false, cloneChildrenForSnapshot_eq]
    exact SnapMatches.mk l b cs _ _ _ rfl rfl
      (forall₂_map_self _ cs (fun c hc => ih c hc))

/-- C9.  Every snapshot produced by `refreshActiveTreeSnapshot` records
branch length 0 at its root regardless of the stored value, keeps the
label, and corresponds child by child to the active tree with every
non-root branch length preserved (missing ones becoming 0); and
`getActiveTreeSnapshot` returns exactly this snapshot. -/
theorem c9_snapshot_root (st : CalcState) (t : TNode) (h : st.activeTree = some t) :
    ∃ snap, (refreshActiveTreeSnapshot st).latestTreeSnapshot = some snap ∧
      snap.branchLength = .num 0 ∧ snap.label = t.label.getD "" ∧
      List.Forall₂ SnapMatches t.children snap.children ∧
      getActiveTreeSnapshot (refreshActiveTreeSnapshot st) = some snap := by
  refine ⟨cloneNodeForSnapshot t true, ?_, ?_, ?_, ?_, ?_⟩
  · unfold refreshActiveTreeSnapshot
    rw [h]
  · cases t with
    | mk l b cs => rfl
  · cases t with
    | mk l b cs => rfl
  · cases t with
    | mk l b cs =>
      simp only [cloneNodeForSnapshot, Snap.children, TNode.children, cloneChildrenForSnapshot_eq]
      exact forall₂_map_self _ cs (fun c _ => cloneNode_matches c)
  · unfold getActiveTreeSnapshot refreshActiveTreeSnapshot
    rw [h]
    simp [cloneSnap_id]

/-- Witness for C9 on the loaded sample state. -/
theorem c9_snapshot_root_witness :
    stLoaded.activeTree = some tAB ∧
    ∃ snap, (refreshActiveTreeSnapshot stLoaded).latestTreeSnapshot = some snap ∧
      snap.branchLength = .num 0 ∧ snap.label = tAB.label.getD "" ∧
      List.Forall₂ SnapMatches tAB.children snap.children ∧
      getActiveTreeSnapshot (refreshActiveTreeSnapshot stLoaded) = some snap :=
  ⟨rfl, c9_snapshot_root stLoaded tAB rfl⟩

/- ======================= Claim C6 ======================= -/

/-- Membership in the concatenated leaf labels of a tree list. -/
theorem mem_leafLabelsList {l : Option String} : ∀ cs : List TNode,
    (l ∈ leafLabelsList cs ↔ ∃ c, c ∈ cs ∧ l ∈ c.leafLabels) := by
  intro cs
  induction cs with
  | nil => simp [leafLabelsList]
  | cons c rest ih =>
    simp only [leafLabelsList, List.mem_append, ih, List.mem_cons]
    constructor
    · rintro (h | ⟨c2, hc2, hl⟩)
      · exact ⟨c, Or.inl rfl, h⟩
      · exact ⟨c2, Or.inr hc2, hl⟩
    · rintro ⟨c2, h | h, hl⟩
      · subst h; exact Or.inl hl
      · exact Or.inr ⟨c2, h, hl⟩

/-- The child-pruning pass is a `filterMap`. -/
theorem pruneList_eq (S : List String) : ∀ cs : List TNode,
    pruneList S cs = cs.filterMap (pruneNode S) := by
  intro cs
  induction cs with
  | nil => rfl
  | cons c rest ih =>
    simp only [pruneList, List.filterMap_cons]
    cases pruneNode S c with
    | none => exact ih
    | some c2 => rw [ih]

/-- Unfolding of `pruneNode` at a childless node. -/
theorem pruneNode_nil (S : List String) (lab : Option String) (b : Option JNum) :
    pruneNode S (.mk lab b []) =
      if isSpeciesAllowed lab S then some (.mk lab b []) else none := by
  simp [pruneNode]

/-- Unfolding of `pruneNode` at an internal node. -/
theorem pruneNode_cons (S : List String) (lab : Option String) (b : Option JNum)
    (c : TNode) (rest : List TNode) :
    pruneNode S (.mk lab b (c :: rest)) =
      match pruneList S (c :: rest) with
      | [] => if isSpeciesAllowed lab S then some (.mk lab b []) else none
      | c2 :: rest2 => some (.mk lab b (c2 :: rest2)) := by
  simp [pruneNode]

/-- Core properties of the post-order pass below the root: kept leaves are
allowed, a fully removed subtree had no allowed leaf, and every allowed
leaf survives. -/
theorem pruneNode_props (S : List String) : ∀ t : TNode,
    (∀ t2, pruneNode S t = some t2 → ∀ l ∈ t2.leafLabels, isSpeciesAllowed l S = true) ∧
    (pruneNode S t = none → ∀ l ∈ t.leafLabels, isSpeciesAllowed l S = false) ∧
    (∀ t2, pruneNode S t = some t2 →
      ∀ l ∈ t.leafLabels, isSpeciesAllowed l S = true → l ∈ t2.leafLabels) := by
  intro t
  induction t using tnodeInductionOn with
  | h lab b cs ih =>
    cases cs with
    | nil =>
      refine ⟨?_, ?_, ?_⟩
      · intro t2 h2 l hl
        rw [pruneNode_nil] at h2
        cases hA : isSpeciesAllowed lab S with
        | false => rw [hA] at h2; simp at h2
        | true =>
          rw [hA] at h2
          simp only [if_true] at h2
          obtain rfl : TNode.mk lab b [] = t2 := Option.some.inj h2
          simp only [TNode.leafLabels, List.mem_singleton] at hl
          subst hl
          exact hA
      · intro h2 l hl
        rw [pruneNode_nil] at h2
        cases hA : isSpeciesAllowed lab S with
        | false =>
          simp only [TNode.leafLabels, List.mem_singleton] at hl
          subst hl
          exact hA
        | true => rw [hA] at h2; simp at h2
      · intro t2 h2 l hl hallowed
        rw [pruneNode_nil] at h2
        cases hA : isSpeciesAllowed lab S with
        | false => rw [hA] at h2; simp at h2
        | true =>
          rw [hA] at h2
          simp only [if_true] at h2
          obtain rfl : TNode.mk lab b [] = t2 := Option.some.inj h2
          exact hl
    | cons c rest =>
      refine ⟨?_, ?_, ?_⟩
      · intro t2 h2 l hl
        rw [pruneNode_cons] at h2
        rcases hcs : pruneList S (c :: rest) with _ | ⟨c2, rest2⟩
        · rw [hcs] at h2
          cases hA : isSpeciesAllowed lab S with
          | false => rw [hA] at h2; simp at h2
          | true =>
            rw [hA] at h2
            simp only [if_true] at h2
            obtain rfl : TNode.mk lab b [] = t2 := Option.some.inj h2
            simp only [TNode.leafLabels, List.mem_singleton] at hl
            subst hl
            exact hA
        · rw [hcs] at h2
          obtain rfl : TNode.mk lab b (c2 :: rest2) = t2 := Option.some.inj h2
          simp only [TNode.leafLabels] at hl
          rw [mem_leafLabelsList] at hl
          obtain ⟨c3, hc3, hl3⟩ := hl
          have hc3p : c3 ∈ pruneList S (c :: rest) := by rw [hcs]; exact hc3
          rw [pruneList_eq] at hc3p
          obtain ⟨c0, hc0, hc0p⟩ := List.mem_filterMap.1 hc3p
          exact (ih c0 hc0).1 c3 hc0p l hl3
      · intro h2 l hl
        rw [pruneNode_cons] at h2
        rcases hcs : pruneList S (c :: rest) with _ | ⟨c2, rest2⟩
        · rw [hcs] at h2
          cases hA : isSpeciesAllowed lab S with
          | true => rw [hA] at h2; simp at h2
          | false =>
            simp only [TNode.leafLabels] at hl
            rw [mem_leafLabelsList] at hl
            obtain ⟨c0, hc0, hl0⟩ := hl
            cases hp : pruneNode S c0 with
            | some c0p =>
              have : c0p ∈ pruneList S (c :: rest) := by
                rw [pruneList_eq]
                exact List.mem_filterMap.2 ⟨c0, hc0, hp⟩
              rw [hcs] at this
              simp at this
            | none => exact (ih c0 hc0).2.1 hp l hl0
        · rw [hcs] at h2; simp at h2
      · intro t2 h2 l hl hallowed
        rw [pruneNode_cons] at h2
        simp only [TNode.leafLabels] at hl
        rw [mem_leafLabelsList] at hl
        obtain ⟨c0, hc0, hl0⟩ := hl
        cases hp : pruneNode S c0 with
        | none =>
          have := (ih c0 hc0).2.1 hp l hl0
          rw [hallowed] at this
          cases this
        | some c0p =>
          have hmem : c0p ∈ pruneList S (c :: rest) := by
            rw [pruneList_eq]
            exact List.mem_filterMap.2 ⟨c0, hc0, hp⟩
          have hlp : l ∈ c0p.leafLabels := (ih c0 hc0).2.2 c0p hp l hl0 hallowed
          rcases hcs : pruneList S (c :: rest) with _ | ⟨c2, rest2⟩
          · rw [hcs] at hmem; simp at hmem
          · rw [hcs] at h2
            obtain rfl : TNode.mk lab b (c2 :: rest2) = t2 := Option.some.inj h2
            simp only [TNode.leafLabels]
            rw [mem_leafLabelsList]
            rw [hcs] at hmem
            exact ⟨c0p, hmem, hlp⟩

/-- Root promotion does not change the leaf label sequence. -/
theorem promoteRoot_leafLabels (S : List String) : ∀ t : TNode,
    (promoteRoot S t).leafLabels = t.leafLabels := by
  intro t
  induction t using tnodeInductionOn with
  | h lab b cs ih =>
    match cs, ih with
    | [], _ => rfl
    | [c], ih =>
      cases hA : isSpeciesAllowed lab S with
      | true => simp [promoteRoot, hA]
      | false =>
        simp only [promoteRoot, hA, Bool.false_eq_true, if_false]
        rw [ih c (List.mem_singleton.2 rfl)]
        simp [TNode.leafLabels, leafLabelsList]
    | c1 :: c2 :: rest, _ => rfl

/-- Meaning of a true `isSpeciesAllowed` against a non-empty allowed set:
the label is present and one of its name variants is in the set. -/
theorem isSpeciesAllowed_spec {l : Option String} {S : List String} (hS : S ≠ [])
    (h : isSpeciesAllowed l S = true) :
    ∃ lab, l = some lab ∧ ∃ v ∈ getVariants lab, v ∈ S := by
  have hne : S.isEmpty = false := by
    cases S with
    | nil => exact absurd rfl hS
    | cons a as => rfl
  unfold isSpeciesAllowed at h
  rw [hne] at h
  simp only [Bool.false_eq_true, if_false] at h
  cases l with
  | none => cases h
  | some n =>
    replace h : (if n = "" then false else (getVariants n).any fun v => S.contains v) = true := h
    by_cases hn : n = ""
    · rw [if_pos hn] at h; cases h
    · rw [if_neg hn] at h
      obtain ⟨v, hv, hvS⟩ := List.any_eq_true.1 h
      exact ⟨n, rfl, v, hv, List.elem_iff.1 hvS⟩

/-- Leaves of the root pass: all allowed, except possibly the root label
itself when all children were pruned away. -/
theorem pruneRootPass_eq (S : List String) (lab : Option String) (b : Option JNum)
    (cs : List TNode) :
    pruneRootPass S (.mk lab b cs) = .mk lab b (pruneList S cs) := rfl

/-- Unfolding of `pruneTreeToAllowed` when promotion ends at a childless
root. -/
theorem pruneTree_promote_nil {S : List String} {lab : Option String} {b : Option JNum}
    {cs : List TNode} {rl : Option String} {rb : Option JNum}
    (hr : promoteRoot S (pruneRootPass S (.mk lab b cs)) = .mk rl rb []) :
    pruneTreeToAllowed S (.mk lab b cs) =
      if isSpeciesAllowed rl S then some (.mk rl rb []) else none := by
  unfold pruneTreeToAllowed
  rw [hr]

/-- Unfolding of `pruneTreeToAllowed` when promotion ends at an internal
root. -/
theorem pruneTree_promote_cons {S : List String} {lab : Option String} {b : Option JNum}
    {cs : List TNode} {rl : Option String} {rb : Option JNum} {c2 : TNode} {rest2 : List TNode}
    (hr : promoteRoot S (pruneRootPass S (.mk lab b cs)) = .mk rl rb (c2 :: rest2)) :
    pruneTreeToAllowed S (.mk lab b cs) = some (.mk rl rb (c2 :: rest2)) := by
  unfold pruneTreeToAllowed
  rw [hr]

/-- C6.  After pruning with a non-empty allowed variant set: every leaf of
the resulting tree has a label one of whose name variants is in the
allowed set, and every leaf of the original tree whose label matches the
allowed set is still a leaf of the pruned tree; when the result is empty,
no leaf of the original tree matched at all. -/
theorem c6_pruning (S : List String) (hS : S ≠ []) (t : TNode) :
    (∀ t2, pruneTreeToAllowed S t = some t2 →
      (∀ l ∈ t2.leafLabels, ∃ lab, l = some lab ∧ ∃ v ∈ getVariants lab, v ∈ S) ∧
      (∀ l ∈ t.leafLabels, isSpeciesAllowed l S = true → l ∈ t2.leafLabels)) ∧
    (pruneTreeToAllowed S t = none →
      ∀ l ∈ t.leafLabels, isSpeciesAllowed l S = false) := by
  obtain ⟨lab, b, cs⟩ := t
  have hR2 : ∀ l ∈ (TNode.mk lab b cs).leafLabels, isSpeciesAllowed l S = true →
      l ∈ (pruneRootPass S (.mk lab b cs)).leafLabels := by
    intro l hl hallowed
    rw [pruneRootPass_eq]
    cases cs with
    | nil => exact hl
    | cons c rest =>
      simp only [TNode.leafLabels] at hl
      rw [mem_leafLabelsList] at hl
      obtain ⟨c0, hc0, hl0⟩ := hl
      cases hp : pruneNode S c0 with
      | none =>
        have := (pruneNode_props S c0).2.1 hp l hl0
        rw [hallowed] at this
        cases this
      | some c0p =>
        have hmem : c0p ∈ pruneList S (c :: rest) := by
          rw [pruneList_eq]
          exact List.mem_filterMap.2 ⟨c0, hc0, hp⟩
        have hlp : l ∈ c0p.leafLabels := (pruneNode_props S c0).2.2 c0p hp l hl0 hallowed
        rcases hcs : pruneList S (c :: rest) with _ | ⟨c2, rest2⟩
        · rw [hcs] at hmem; simp at hmem
        · rw [hcs] at hmem
          simp only [TNode.leafLabels]
          rw [mem_leafLabelsList]
          exact ⟨c0p, hmem, hlp⟩
  have hR1 : ∀ l ∈ (pruneRootPass S (.mk lab b cs)).leafLabels,
      isSpeciesAllowed l S = true ∨ (pruneList S cs = [] ∧ l = lab) := by
    intro l hl
    rw [pruneRootPass_eq] at hl
    rcases hcs : pruneList S cs with _ | ⟨c2, rest2⟩
    · rw [hcs] at hl
      simp only [TNode.leafLabels, List.mem_singleton] at hl
      exact Or.inr ⟨rfl, hl⟩
    · rw [hcs] at hl
      simp only [TNode.leafLabels] at hl
      rw [mem_leafLabelsList] at hl
      obtain ⟨c3, hc3, hl3⟩ := hl
      have hc3p : c3 ∈ pruneList S cs := by rw [hcs]; exact hc3
      rw [pruneList_eq] at hc3p
      obtain ⟨c0, hc0, hc0p⟩ := List.mem_filterMap.1 hc3p
      exact Or.inl ((pruneNode_props S c0).1 c3 hc0p l hl3)
  have hpl : (promoteRoot S (pruneRootPass S (.mk lab b cs))).leafLabels =
      (pruneRootPass S (.mk lab b cs)).leafLabels := promoteRoot_leafLabels S _
  constructor
  · intro t2 h2
    constructor
    · intro l hl
      rcases hr : promoteRoot S (pruneRootPass S (.mk lab b cs)) with ⟨rl, rb, rcs⟩
      cases rcs with
      | nil =>
        rw [pruneTree_promote_nil hr] at h2
        cases hA : isSpeciesAllowed rl S with
        | false => rw [hA] at h2; simp at h2
        | true =>
          rw [hA] at h2
          simp only [if_true] at h2
          obtain rfl : TNode.mk rl rb [] = t2 := Option.some.inj h2
          simp only [TNode.leafLabels, List.mem_singleton] at hl
          subst hl
          exact isSpeciesAllowed_spec hS hA
      | cons c2 rest2 =>
        rw [pruneTree_promote_cons hr] at h2
        obtain rfl : TNode.mk rl rb (c2 :: rest2) = t2 := Option.some.inj h2
        have hl2 : l ∈ (pruneRootPass S (.mk lab b cs)).leafLabels := by
          rw [← hpl, hr]
          exact hl
        rcases hR1 l hl2 with hA | ⟨hempty, hlab⟩
        · exact isSpeciesAllowed_spec hS hA
        · rw [pruneRootPass_eq, hempty] at hr
          have heq : promoteRoot S (.mk lab b ([] : List TNode)) = .mk lab b [] := rfl
          rw [heq] at hr
          simp at hr
    · intro l hl hallowed
      have hl2 := hR2 l hl hallowed
      rcases hr : promoteRoot S (pruneRootPass S (.mk lab b cs)) with ⟨rl, rb, rcs⟩
      have hl3 : l ∈ (TNode.mk rl rb rcs).leafLabels := by
        rw [← hr, hpl]
        exact hl2
      cases rcs with
      | nil =>
        rw [pruneTree_promote_nil hr] at h2
        cases hA : isSpeciesAllowed rl S with
        | false =>
          simp only [TNode.leafLabels, List.mem_singleton] at hl3
          subst hl3
          rw [hallowed] at hA
          cases hA
        | true =>
          rw [hA] at h2
          simp only [if_true] at h2
          obtain rfl : TNode.mk rl rb [] = t2 := Option.some.inj h2
          exact hl3
      | cons c2 rest2 =>
        rw [pruneTree_promote_cons hr] at h2
        obtain rfl : TNode.mk rl rb (c2 :: rest2) = t2 := Option.some.inj h2
        exact hl3
  · intro h2 l hl
    rcases hr : promoteRoot S (pruneRootPass S (.mk lab b cs)) with ⟨rl, rb, rcs⟩
    cases rcs with
    | nil =>
      rw [pruneTree_promote_nil hr] at h2
      cases hA : isSpeciesAllowed rl S with
      | true => rw [hA] at h2; simp at h2
      | false =>
        cases hB : isSpeciesAllowed l S with
        | false => rfl
        | true =>
          have hl2 := hR2 l hl hB
          have hl3 : l ∈ (TNode.mk rl rb ([] : List TNode)).leafLabels := by
            rw [← hr, hpl]
            exact hl2
          simp only [TNode.leafLabels, List.mem_singleton] at hl3
          subst hl3
          rw [hB] at hA
          cases hA
    | cons c2 rest2 =>
      rw [pruneTree_promote_cons hr] at h2
      simp at h2

/-- Evaluation of the pruning of the sample tree to one allowed species. -/
theorem pruneTree_tAB_eval :
    pruneTreeToAllowed ["Homo_sapiens"] tAB = some leafHomo := by
  have hA : isSpeciesAllowed (some "Homo_sapiens") ["Homo_sapiens"] = true := by decide
  have hB : isSpeciesAllowed (some "Pan_troglodytes") ["Homo_sapiens"] = false := by decide
  have hroot : isSpeciesAllowed (none : Option String) ["Homo_sapiens"] = false := by decide
  have h1 : pruneNode ["Homo_sapiens"] leafHomo = some leafHomo := by
    show pruneNode ["Homo_sapiens"] (.mk (some "Homo_sapiens") (some (.num 1)) []) = _
    rw [pruneNode_nil, hA]
    simp [leafHomo]
  have h2 : pruneNode ["Homo_sapiens"] leafPan = none := by
    show pruneNode ["Homo_sapiens"] (.mk (some "Pan_troglodytes") (some (.num 2)) []) = _
    rw [pruneNode_nil, hB]
    simp
  have h3 : pruneList ["Homo_sapiens"] [leafHomo, leafPan] = [leafHomo] := by
    rw [pruneList_eq]
    simp [List.filterMap_cons, h1, h2]
  have h4 : pruneRootPass ["Homo_sapiens"] tAB = .mk none (some (.num 0)) [leafHomo] := by
    show pruneRootPass ["Homo_sapiens"] (.mk none (some (.num 0)) [leafHomo, leafPan]) = _
    rw [pruneRootPass_eq, h3]
  have h5 : promoteRoot ["Homo_sapiens"] (.mk none (some (.num 0)) [leafHomo]) = leafHomo := by
    simp only [promoteRoot, hroot, Bool.false_eq_true, if_false]
    show promoteRoot ["Homo_sapiens"] (.mk (some "Homo_sapiens") (some (.num 1)) []) = _
    rfl
  have hr : promoteRoot ["Homo_sapiens"] (pruneRootPass ["Homo_sapiens"] tAB) = leafHomo := by
    rw [h4, h5]
  have hr2 : promoteRoot ["Homo_sapiens"]
      (pruneRootPass ["Homo_sapiens"] (.mk none (some (.num 0)) [leafHomo, leafPan])) =
      .mk (some "Homo_sapiens") (some (.num 1)) [] := hr
  rw [show tAB = .mk none (some (.num 0)) [leafHomo, leafPan] from rfl]
  rw [pruneTree_promote_nil hr2, hA]
  simp [leafHomo]

/-- Witness for C6: pruning the sample tree to one allowed species. -/
theorem c6_pruning_witness :
    (["Homo_sapiens"] : List String) ≠ [] ∧
    pruneTreeToAllowed ["Homo_sapiens"] tAB = some leafHomo ∧
    ((∀ l ∈ leafHomo.leafLabels,
        ∃ lab, l = some lab ∧ ∃ v ∈ getVariants lab, v ∈ (["Homo_sapiens"] : List String)) ∧
      (∀ l ∈ tAB.leafLabels, isSpeciesAllowed l ["Homo_sapiens"] = true →
        l ∈ leafHomo.leafLabels)) :=
  ⟨by decide, pruneTree_tAB_eval,
    (c6_pruning ["Homo_sapiens"] (by decide) tAB).1 leafHomo pruneTree_tAB_eval⟩

/- ======================= Claim C2 ======================= -/

/-- Symmetric cache: every pair of node positions is stored under both
orderings with the same record.  The empty cache is symmetric, and
`cacheDistance` only ever stores both orderings, so every reachable cache
satisfies this. -/
def SymCache (c : Cache) : Prop := ∀ a b : List ℕ, c (a, b) = c (b, a)

theorem lcp_comm : ∀ p q : List ℕ, lcp p q = lcp q p := by
  intro p
  induction p with
  | nil => intro q; cases q <;> rfl
  | cons a as ih =>
    intro q
    cases q with
    | nil => rfl
    | cons b bs =>
      simp only [lcp]
      by_cases h : a = b
      · subst h
        simp [ih]
      · rw [if_neg h, if_neg (Ne.symm h)]

theorem getMRCA_comm (t : TNode) (p q : List ℕ) : getMRCA t p q = getMRCA t q p := by
  unfold getMRCA
  rw [lcp_comm, Bool.and_comm]

/-- Order independence of the raw computation: the MRCA is symmetric and
the two branch sums commute. -/
theorem computeDistanceBetweenNodes_comm (st : CalcState) (p q : List ℕ) :
    computeDistanceBetweenNodes st p q = computeDistanceBetweenNodes st q p := by
  unfold computeDistanceBetweenNodes
  cases st.activeTree with
  | none => rfl
  | some t =>
    dsimp only
    rw [getMRCA_comm]
    cases getMRCA t q p with
    | none => rfl
    | some anc =>
      dsimp only
      rw [JNum.jadd_comm (distanceToAncestor t p anc) (distanceToAncestor t q anc),
        Nat.add_comm (edgeCountToAncestor p anc) (edgeCountToAncestor q anc)]

/-- Querying the two orders of a pair against a symmetric cache returns the
same record. -/
theorem getDistanceForNodes_symm (st : CalcState) (hS : SymCache st.distanceCache)
    (p q : List ℕ) :
    (getDistanceForNodes st p q).1 = (getDistanceForNodes st q p).1 := by
  unfold getDistanceForNodes
  rw [← hS p q]
  cases hpq : st.distanceCache (p, q) with
  | some m => rfl
  | none =>
    rw [computeDistanceBetweenNodes_comm st q p]
    cases hm : computeDistanceBetweenNodes st p q with
    | none => rfl
    | some m =>
      obtain ⟨raw, edges, eff⟩ := m
      cases eff <;> simp

/-- Storing one record under both orderings of a pair keeps a symmetric
cache symmetric; this is the effect of `cacheDistance`. -/
theorem cacheInsert_pair_sym (c : Cache) (hS : SymCache c) (p q : List ℕ) (m : Metrics) :
    SymCache (cacheInsert (cacheInsert c (p, q) m) (q, p) m) := by
  intro a b
  unfold cacheInsert
  by_cases h1 : (a, b) = (q, p)
  · have ha : a = q := congrArg Prod.fst h1
    have hb : b = p := congrArg Prod.snd h1
    rw [if_pos h1]
    by_cases h2 : (b, a) = (q, p)
    · rw [if_pos h2]
    · rw [if_neg h2, if_pos (show (b, a) = (p, q) by rw [ha, hb])]
  · by_cases h2 : (a, b) = (p, q)
    · have ha : a = p := congrArg Prod.fst h2
      have hb : b = q := congrArg Prod.snd h2
      rw [if_neg h1, if_pos h2, if_pos (show (b, a) = (q, p) by rw [ha, hb])]
    · have h3 : ¬ (b, a) = (q, p) := by
        intro h
        have ha : b = q := congrArg Prod.fst h
        have hb : a = p := congrArg Prod.snd h
        exact h2 (by rw [ha, hb])
      have h4 : ¬ (b, a) = (p, q) := by
        intro h
        have ha : b = p := congrArg Prod.fst h
        have hb : a = q := congrArg Prod.snd h
        exact h1 (by rw [ha, hb])
      rw [if_neg h1, if_neg h2, if_neg h3, if_neg h4]
      exact hS a b

/-- One query preserves cache symmetry: a computed record is stored under
both orderings. -/
theorem getDistanceForNodes_symCache (st : CalcState) (hS : SymCache st.distanceCache)
    (p q : List ℕ) : SymCache ((getDistanceForNodes st p q).2).distanceCache := by
  unfold getDistanceForNodes
  cases hpq : st.distanceCache (p, q) with
  | some m => exact hS
  | none =>
    cases hm : computeDistanceBetweenNodes st p q with
    | none => exact hS
    | some m =>
      dsimp only
      by_cases hf : m.effective.isFinite
      · rw [if_pos hf]
        exact cacheInsert_pair_sym st.distanceCache hS p q m
      · rw [if_neg hf]
        exact hS

/-- The second query of the reverse pair, after the first query updated the
state, returns exactly the first record. -/
theorem getDistanceForNodes_stable (st : CalcState) (hS : SymCache st.distanceCache)
    (p q : List ℕ) :
    (getDistanceForNodes ((getDistanceForNodes st p q).2) q p).1 =
      (getDistanceForNodes st p q).1 := by
  cases hpq : st.distanceCache (p, q) with
  | some m =>
    have h1 : getDistanceForNodes st p q = (some m, st) := by
      unfold getDistanceForNodes
      rw [hpq]
    rw [h1]
    have h2 : st.distanceCache (q, p) = some m := (hS p q).symm.trans hpq
    unfold getDistanceForNodes
    dsimp only
    rw [h2]
  | none =>
    cases hm : computeDistanceBetweenNodes st p q with
    | none =>
      have h1 : getDistanceForNodes st p q = (none, st) := by
        unfold getDistanceForNodes
        rw [hpq]
        dsimp only
        rw [hm]
      rw [h1]
      have h2 : st.distanceCache (q, p) = none := (hS p q).symm.trans hpq
      have h3 : computeDistanceBetweenNodes st q p = none := by
        rw [computeDistanceBetweenNodes_comm st q p]
        exact hm
      unfold getDistanceForNodes
      dsimp only
      rw [h2]
      dsimp only
      rw [h3]
    | some m =>
      by_cases hf : m.effective.isFinite
      · have h1 : getDistanceForNodes st p q = (some m,
            { st with
                distanceCache := cacheInsert (cacheInsert st.distanceCache (p, q) m) (q, p) m,
                globalMaxPairwiseDistance :=
                  if st.globalMaxPairwiseDistance.jlt m.effective then m.effective
                  else st.globalMaxPairwiseDistance }) := by
          unfold getDistanceForNodes
          rw [hpq]
          dsimp only
          rw [hm]
          dsimp only
          rw [if_pos hf]
        rw [h1]
        unfold getDistanceForNodes
        dsimp only
        have h2 : cacheInsert (cacheInsert st.distanceCache (p, q) m) (q, p) m (q, p) = some m := by
          simp [cacheInsert]
        rw [h2]
      · have h1 : getDistanceForNodes st p q = (some m, st) := by
          unfold getDistanceForNodes
          rw [hpq]
          dsimp only
          rw [hm]
          dsimp only
          rw [if_neg hf]
        rw [h1]
        have h2 : st.distanceCache (q, p) = none := (hS p q).symm.trans hpq
        have h3 : computeDistanceBetweenNodes st q p = some m := by
          rw [computeDistanceBetweenNodes_comm st q p]
          exact hm
        unfold getDistanceForNodes
        dsimp only
        rw [h2]
        dsimp only
        rw [h3]
        dsimp only
        rw [if_neg hf]

/-- Species lookup depends on the state only through the node index. -/
theorem lookupSpecies_congr (st1 st2 : CalcState) (h : st1.nodeIndex = st2.nodeIndex)
    (name : String) : lookupSpecies st1 name = lookupSpecies st2 name := by
  unfold lookupSpecies
  rw [h]

/-- C2.  Against a symmetric cache (the invariant of every reachable
cache), `getPhylogeneticDistance` returns equal records for `(a, b)` and
`(b, a)`; querying the reverse pair after the first query answers with the
same record; the cache stays symmetric; and a cleared cache is symmetric
to begin with. -/
theorem c2_symmetry (st : CalcState) (hS : SymCache st.distanceCache) (a b : String) :
    (getPhylogeneticDistance st a b).1 = (getPhylogeneticDistance st b a).1 ∧
    (getPhylogeneticDistance (getPhylogeneticDistance st a b).2 b a).1 =
      (getPhylogeneticDistance st a b).1 ∧
    SymCache ((getPhylogeneticDistance st a b).2).distanceCache ∧
    SymCache emptyCache := by
  by_cases hg : st.isLoaded = false ∨ st.activeTree = none
  · have h1 : getPhylogeneticDistance st a b = (none, st) := by
      unfold getPhylogeneticDistance
      rw [if_pos hg]
    have h2 : getPhylogeneticDistance st b a = (none, st) := by
      unfold getPhylogeneticDistance
      rw [if_pos hg]
    rw [h1, h2]
    exact ⟨rfl, rfl, hS, fun _ _ => rfl⟩
  · have keyEq : ∀ (x y : String), lookupSpecies st x = none →
        getPhylogeneticDistance st x y = (none, st) := by
      intro x y hx
      unfold getPhylogeneticDistance
      rw [if_neg hg, hx]
    have keyEq2 : ∀ (x y : String), lookupSpecies st y = none →
        getPhylogeneticDistance st x y = (none, st) := by
      intro x y hy
      unfold getPhylogeneticDistance
      rw [if_neg hg, hy]
      cases lookupSpecies st x <;> rfl
    cases hla : lookupSpecies st a with
    | none =>
      have h1 : getPhylogeneticDistance st a b = (none, st) := keyEq a b hla
      have h2 : getPhylogeneticDistance st b a = (none, st) := keyEq2 b a hla
      refine ⟨?_, ?_, ?_, fun _ _ => rfl⟩
      · rw [h1, h2]
      · rw [h1]
        show (getPhylogeneticDistance st b a).1 = (none, st).1
        rw [h2]
      · rw [h1]
        exact hS
    | some pa =>
      cases hlb : lookupSpecies st b with
      | none =>
        have h1 : getPhylogeneticDistance st a b = (none, st) := keyEq2 a b hlb
        have h2 : getPhylogeneticDistance st b a = (none, st) := keyEq b a hlb
        refine ⟨?_, ?_, ?_, fun _ _ => rfl⟩
        · rw [h1, h2]
        · rw [h1]
          show (getPhylogeneticDistance st b a).1 = (none, st).1
          rw [h2]
        · rw [h1]
          exact hS
      | some pb =>
        by_cases hpp : pa = pb
        · subst hpp
          have h1 : getPhylogeneticDistance st a b =
              (some { raw := .num 0, edges := 0, effective := .num 0 }, st) := by
            unfold getPhylogeneticDistance
            rw [if_neg hg, hla, hlb]
            dsimp only
            rw [if_pos (rfl : pa = pa)]
          have h2 : getPhylogeneticDistance st b a =
              (some { raw := .num 0, edges := 0, effective := .num 0 }, st) := by
            unfold getPhylogeneticDistance
            rw [if_neg hg, hlb, hla]
            dsimp only
            rw [if_pos (rfl : pa = pa)]
          refine ⟨?_, ?_, ?_, fun _ _ => rfl⟩
          · rw [h1, h2]
          · rw [h1]
            show (getPhylogeneticDistance st b a).1 = _
            rw [h2]
          · rw [h1]
            exact hS
        · have h1 : getPhylogeneticDistance st a b = getDistanceForNodes st pa pb := by
            unfold getPhylogeneticDistance
            rw [if_neg hg, hla, hlb]
            dsimp only
            rw [if_neg hpp]
          have h2 : getPhylogeneticDistance st b a = getDistanceForNodes st pb pa := by
            unfold getPhylogeneticDistance
            rw [if_neg hg, hlb, hla]
            dsimp only
            rw [if_neg (fun h => hpp h.symm)]
          obtain ⟨hL, hT, hI, -, -, -⟩ := getDistanceForNodes_frame st pa pb
          have hg2 : ¬ ((getDistanceForNodes st pa pb).2.isLoaded = false ∨
              (getDistanceForNodes st pa pb).2.activeTree = none) := by
            rw [hL, hT]
            exact hg
          have hlb2 : lookupSpecies (getDistanceForNodes st pa pb).2 b = some pb := by
            rw [lookupSpecies_congr _ st hI b]
            exact hlb
          have hla2 : lookupSpecies (getDistanceForNodes st pa pb).2 a = some pa := by
            rw [lookupSpecies_congr _ st hI a]
            exact hla
          have h3 : getPhylogeneticDistance (getDistanceForNodes st pa pb).2 b a =
              getDistanceForNodes (getDistanceForNodes st pa pb).2 pb pa := by
            unfold getPhylogeneticDistance
            rw [if_neg hg2, hlb2, hla2]
            dsimp only
            rw [if_neg (fun h => hpp h.symm)]
          refine ⟨?_, ?_, ?_, fun _ _ => rfl⟩
          · rw [h1, h2]
            exact getDistanceForNodes_symm st hS pa pb
          · rw [h1, h3]
            exact getDistanceForNodes_stable st hS pa pb
          · rw [h1]
            exact getDistanceForNodes_symCache st hS pa pb

/-- Witness for C2 on the loaded sample state with a cleared cache. -/
theorem c2_symmetry_witness :
    SymCache stLoaded.distanceCache ∧
    ((getPhylogeneticDistance stLoaded "Homo_sapiens" "Pan_troglodytes").1 =
      (getPhylogeneticDistance stLoaded "Pan_troglodytes" "Homo_sapiens").1 ∧
    (getPhylogeneticDistance
        (getPhylogeneticDistance stLoaded "Homo_sapiens" "Pan_troglodytes").2
        "Pan_troglodytes" "Homo_sapiens").1 =
      (getPhylogeneticDistance stLoaded "Homo_sapiens" "Pan_troglodytes").1 ∧
    SymCache ((getPhylogeneticDistance stLoaded "Homo_sapiens" "Pan_troglodytes").2).distanceCache ∧
    SymCache emptyCache) :=
  ⟨fun _ _ => rfl,
    c2_symmetry stLoaded (fun _ _ => rfl) "Homo_sapiens" "Pan_troglodytes"⟩

end Mystery
